import Mathlib


/-!
Verification of the ScholarAI research pipeline core
(backend/api/routes/retrieval.py, backend/services/claim_extractor.py,
backend/services/synthesizer.py) against its natural-language specification.

Python strings are modelled as lists of characters (`PyStr`); Python `int`s
as `ℤ`/`ℕ`; Python floats in the scoring pipeline as exact rationals `ℚ`
(the spec's formulas are stated over real numbers, and none of the claims
hinges on binary floating-point representation error); Python `round(x, 2)`
as round-half-to-even at two decimal places.  Fallible code returns
`Except`.  The LLM, the embedding model and the vector store are external
collaborators: they enter the model as explicit parameters (an `Option`al
response for the LLM, a similarity function for the embedding gateway).
-/

/-! Batteries marks the arithmetic on `Rat` `irreducible`, which blocks
`decide`-style evaluation of concrete scores; restore the default
reducibility locally so that concrete runs of the pipeline evaluate. -/

attribute [local semireducible] Rat.mul Rat.inv Rat.add Rat.sub


/-! ### Python string primitives -/

/-- A Python `str`, modelled as its sequence of characters. -/
abbrev PyStr := List Char


/-- Python `str.lower()` restricted to its ASCII behaviour: characters
`A`–`Z` (code points 65–90) are shifted by 32, all others are unchanged.
This is exactly what CPython does on ASCII input. -/
def pyCharLower (c : Char) : Char :=
  if c.toNat ≥ 65 ∧ c.toNat ≤ 90 then Char.ofNat (c.toNat + 32) else c


/-- Python `s.lower()`. -/
def pyLower (s : PyStr) : PyStr :=
  s.map pyCharLower


/-- Worker for `pySplitWs`, accumulating the characters of the current
word in reverse. -/
def pySplitWsAux : PyStr → PyStr → List PyStr
  | [], acc => if acc = [] then [] else [acc.reverse]
  | c :: cs, acc =>
    if c.isWhitespace then
      if acc = [] then pySplitWsAux cs [] else acc.reverse :: pySplitWsAux cs []
    else pySplitWsAux cs (c :: acc)


/-- Python `s.split()` (no argument): split on runs of whitespace,
discarding empty pieces; every returned word is non-empty. -/
def pySplitWs (s : PyStr) : List PyStr :=
  pySplitWsAux s []


/-- Python `needle in hay` on strings: contiguous-substring containment
(the empty string is a substring of everything). -/
def pySubstr (needle hay : PyStr) : Bool :=
  hay.tails.any (fun t => needle.isPrefixOf t)


/-- Python `" ".join(words)`. -/
def pyJoinSpace (ws : List PyStr) : PyStr :=
  List.intercalate [' '] ws


/-- Python `s[:n]` on a string. -/
def pyTake (n : ℕ) (s : PyStr) : PyStr :=
  s.take n


/-! ### Python `round(x, 2)`

Python `round` rounds half to even (banker's rounding).  `pyRound2 x`
is `round(x, 2)` on exact rationals. -/

/-- Round a rational to the nearest integer, halves to even. -/
def roundHalfEven (q : ℚ) : ℤ :=
  if q - (⌊q⌋ : ℚ) < 1/2 then ⌊q⌋
  else if 1/2 < q - (⌊q⌋ : ℚ) then ⌊q⌋ + 1
  else if ⌊q⌋ % 2 = 0 then ⌊q⌋ else ⌊q⌋ + 1


/-- Python `round(x, 2)`. -/
def pyRound2 (q : ℚ) : ℚ :=
  (roundHalfEven (q * 100) : ℚ) / 100


/-! ### Retrieval: re-ranking and source diversity
(backend/api/routes/retrieval.py) -/

/-- A retrieved hit as passed through `_rerank_results` and
`_ensure_source_diversity` (retrieval.py): the dict
`{id, document_id, source_title, content, relevance_score, metadata}`,
with the only metadata key the code reads (`section_title`, defaulting
to the empty string) inlined. -/
structure Hit where
  id : String
  document_id : String
  source_title : String
  content : PyStr
  relevance_score : ℚ
  section_title : PyStr
deriving DecidableEq, Repr


instance : Inhabited Hit := ⟨⟨"", "", "", [], 0, []⟩⟩


/-- The re-ranked score of one hit (retrieval.py lines 162-201):
base score times length boost, keyword boost and section-title boost,
clamped at 100 and rounded to two decimals. -/
def rerank_score (query : PyStr) (h : Hit) : ℚ :=
  let query_terms := (pySplitWs (pyLower query)).dedup
  let base_score := h.relevance_score
  let content_length := h.content.length
  let length_boost : ℚ :=
    if 200 ≤ content_length ∧ content_length ≤ 1000 then 21/20
    else if content_length < 100 then 9/10
    else 1
  let keyword_matches :=
    (query_terms.filter (fun t => pySubstr t (pyLower h.content))).length
  let keyword_boost : ℚ := 1 + (keyword_matches : ℚ) * (1/50)
  let section_boost : ℚ :=
    if h.section_title ≠ [] ∧
        query_terms.any (fun t => pySubstr t (pyLower h.section_title)) then 11/10
    else 1
  pyRound2 (min (base_score * length_boost * keyword_boost * section_boost) 100)


/-- Descending-by-score ordering used by `scored_results.sort(key=...,
reverse=True)`; Python's sort is stable, and `List.insertionSort` with
this relation is the stable descending sort. -/
def hitGE (a b : Hit) : Prop := b.relevance_score ≤ a.relevance_score


instance : DecidableRel hitGE := fun a b => inferInstanceAs (Decidable (b.relevance_score ≤ a.relevance_score))


instance : IsTotal Hit hitGE := ⟨fun a b => le_total b.relevance_score a.relevance_score⟩


instance : IsTrans Hit hitGE := ⟨fun _ _ _ h1 h2 => le_trans h2 h1⟩


/-- `_rerank_results` (retrieval.py lines 149-207): rescore every hit,
then sort by final score, descending, stably. -/
def rerank_results (results : List Hit) (query : PyStr) : List Hit :=
  List.insertionSort hitGE
    (results.map (fun r => { r with relevance_score := rerank_score query r }))


/-- The primary diversity pass of `_ensure_source_diversity`
(retrieval.py lines 227-237): iterate hits in order, admit a hit if its
`document_id` has been admitted fewer than `max_per_source` times, and
stop as soon as `top_k` hits are selected (the stop test runs after each
iteration, admitted or not). -/
def diversityPrimary : List Hit → List Hit → ℕ → ℕ → List Hit
  | [], selected, _, _ => selected
  | r :: rest, selected, top_k, max_per_source =>
    let selected' :=
      if selected.countP (fun s => s.document_id == r.document_id) < max_per_source
      then selected ++ [r] else selected
    if top_k ≤ selected'.length then selected'
    else diversityPrimary rest selected' top_k max_per_source


/-- The backfill pass of `_ensure_source_diversity` (retrieval.py lines
240-245): if fewer than `top_k` were selected, append every hit not
already selected (membership by value) until `top_k` is reached. -/
def diversityBackfill : List Hit → List Hit → ℕ → List Hit
  | [], selected, _ => selected
  | r :: rest, selected, top_k =>
    if r ∈ selected then diversityBackfill rest selected top_k
    else
      let selected' := selected ++ [r]
      if top_k ≤ selected'.length then selected'
      else diversityBackfill rest selected' top_k


/-- `_ensure_source_diversity` (retrieval.py lines 210-247). -/
def ensure_source_diversity (results : List Hit) (top_k : ℕ)
    (max_per_source : ℕ := 4) : List Hit :=
  if results = [] then []
  else
    let selected := diversityPrimary results [] top_k max_per_source
    if selected.length < top_k then diversityBackfill results selected top_k
    else selected


/-- Stages 2-4 of `retrieve_chunks` (retrieval.py lines 111-128): re-rank,
diversify, and truncate to `top_k`.  The request schema
(`RetrieveChunksRequest.top_k`, schemas.py line 138) constrains
`top_k` to `ge=1, le=50`. -/
def retrievePipeline (results : List Hit) (query : PyStr) (top_k : ℕ) : List Hit :=
  (ensure_source_diversity (rerank_results results query) top_k 4).take top_k


/-- The interrogative/auxiliary stop words of `_expand_query`
(retrieval.py line 336). -/
def question_words : List PyStr :=
  ["what", "how", "why", "when", "where", "which", "who", "is", "are",
   "does", "do"].map String.toList


/-- `filtered_words` of `_expand_query` (retrieval.py lines 337-338):
lowercase whitespace-split words with stop words and short words removed. -/
def filtered_words (query : PyStr) : List PyStr :=
  (pySplitWs (pyLower query)).filter
    (fun w => !question_words.contains w && decide (2 < w.length))


/-- `keyword_query` of `_expand_query` (retrieval.py line 341). -/
def keyword_query (query : PyStr) : PyStr :=
  pyJoinSpace (filtered_words query)


/-- `key_terms` of `_expand_query` (retrieval.py lines 347-351):
capitalized words longer than two characters. -/
def key_terms (query : PyStr) : List PyStr :=
  (pySplitWs query).filter (fun w =>
    (match w with | [] => false | c :: _ => c.isUpper) && decide (2 < w.length))


/-- `term_query` of `_expand_query` (retrieval.py line 354). -/
def term_query (query : PyStr) : PyStr :=
  pyJoinSpace (key_terms query)


/-- `_expand_query` (retrieval.py lines 327-358). -/
def expand_query (query : PyStr) : List PyStr :=
  let queries₁ :=
    if (filtered_words query).isEmpty then [query]
    else if keyword_query query ≠ pyLower query then [query] ++ [keyword_query query]
    else [query]
  let queries₂ :=
    if (key_terms query).isEmpty then queries₁
    else if term_query query ∉ queries₁ then queries₁ ++ [term_query query]
    else queries₁
  queries₂.take 3


/-! ### Spec-side formulations for the reranking score (spec.md §4.1)

`claimed_rerank_score` renders the specification's wording for the
keyword boost: distinct query terms that are *members of the set of the
content's words* (case-insensitive word intersection).
`amended_rerank_score` is the same formula with the keyword boost
counting query terms occurring as *substrings* of the lowercased
content, which is what the code computes. -/

/-- Spec-worded score (spec.md §4.1: keyword_boost counts the
word-set intersection of query terms and content words). -/
def claimed_rerank_score (query : PyStr) (h : Hit) : ℚ :=
  let query_terms := (pySplitWs (pyLower query)).dedup
  let content_words := pySplitWs (pyLower h.content)
  let length_boost : ℚ :=
    if 200 ≤ h.content.length ∧ h.content.length ≤ 1000 then 21/20
    else if h.content.length < 100 then 9/10
    else 1
  let keyword_boost : ℚ :=
    1 + (query_terms.countP (fun t => decide (t ∈ content_words)) : ℚ) * (1/50)
  let section_boost : ℚ :=
    if query_terms.any (fun t => pySubstr t (pyLower h.section_title)) then 11/10
    else 1
  pyRound2 (min (h.relevance_score * length_boost * keyword_boost * section_boost) 100)


/-- The claim amended: identical to the spec formula except that the
keyword boost counts distinct query terms occurring as case-insensitive
substrings of the content. -/
def amended_rerank_score (query : PyStr) (h : Hit) : ℚ :=
  let query_terms := (pySplitWs (pyLower query)).dedup
  let length_boost : ℚ :=
    if 200 ≤ h.content.length ∧ h.content.length ≤ 1000 then 21/20
    else if h.content.length < 100 then 9/10
    else 1
  let keyword_boost : ℚ :=
    1 + (query_terms.countP (fun t => pySubstr t (pyLower h.content)) : ℚ) * (1/50)
  let section_boost : ℚ :=
    if query_terms.any (fun t => pySubstr t (pyLower h.section_title)) then 11/10
    else 1
  pyRound2 (min (h.relevance_score * length_boost * keyword_boost * section_boost) 100)


/-- A concrete hit used to separate the code's keyword boost from the
spec's: content "catalog" contains the query term "cat" as a substring
but not as a word. -/
def catHit : Hit :=
  { id := "h1", document_id := "d1", source_title := "t",
    content := "catalog".toList, relevance_score := 50, section_title := [] }


/-- C2, counterexample input: five hits from document d1 and one from d2,
with strictly decreasing base scores and identical short contents. -/
def orderCexHits : List Hit :=
  [⟨"a", "d1", "t", "aaaa".toList, 90, []⟩,
   ⟨"b", "d1", "t", "aaaa".toList, 80, []⟩,
   ⟨"c", "d1", "t", "aaaa".toList, 70, []⟩,
   ⟨"d", "d1", "t", "aaaa".toList, 60, []⟩,
   ⟨"e", "d1", "t", "aaaa".toList, 50, []⟩,
   ⟨"f", "d2", "t", "aaaa".toList, 40, []⟩]


/-- Concrete input for the C2 witness. -/
def segHits : List Hit :=
  [⟨"x", "dA", "t", "hello".toList, 70, []⟩,
   ⟨"y", "dB", "t", "hello".toList, 30, []⟩]


/-- Concrete input for the C6 witness. -/
def capHits : List Hit :=
  [⟨"u", "dU", "t", "text".toList, 95, []⟩,
   ⟨"v", "dU", "t", "text".toList, 85, []⟩,
   ⟨"w", "dV", "t", "text".toList, 75, []⟩]


/-! ### Claim deduplication (backend/services/claim_extractor.py) -/

/-- The fields of a `Claim` that `_deduplicate_claims` reads or writes
(schemas.py `Claim`; statement drives the embeddings, confidence and
source_ids drive the merge decision). -/
structure DClaim where
  statement : String
  confidence : ℤ
  source_ids : List String
deriving DecidableEq, Repr


instance : Inhabited DClaim := ⟨⟨"", 0, []⟩⟩


/-- `list(set(a + b))` (claim_extractor.py lines 504 and 507): the
duplicate-free merge of two source-id lists.  Python's `set` does not
define an element order; only the underlying set and its size are ever
used downstream, and `(a ++ b).dedup` realises both. -/
def mergeSourceIds (a b : List String) : List String :=
  (a ++ b).dedup


/-- The mutable state of `_deduplicate_claims`: the claims list (whose
`source_ids` are merged in place) and `keep_indices`. -/
structure DedupState where
  claims : List DClaim
  keep : Finset ℕ


/-- One inner-loop iteration of `_deduplicate_claims` (claim_extractor.py
lines 491-507) for the pair (i, j): skip if `j` was already dropped;
otherwise, if the embedding similarity of the two original statements
reaches the threshold, keep `j` iff it has strictly higher confidence or
strictly more source ids, merging the other claim's source ids into it.
`sim` is `compute_similarity` composed with the embeddings of the two
statements; `stmts` holds the original statements (they are never
mutated, so the embeddings computed up front stay valid).  Note the code
does not re-check whether `i` is still kept inside the inner loop. -/
def dedupPairStep (sim : String → String → ℚ) (t : ℚ) (stmts : List String)
    (i j : ℕ) (s : DedupState) : DedupState :=
  if j ∉ s.keep then s
  else if t ≤ sim (stmts.getD i "") (stmts.getD j "") then
    if (s.claims.getD i default).confidence < (s.claims.getD j default).confidence ∨
        (s.claims.getD i default).source_ids.length <
          (s.claims.getD j default).source_ids.length then
      ⟨s.claims.set j
          { s.claims.getD j default with
            source_ids := mergeSourceIds (s.claims.getD j default).source_ids
              (s.claims.getD i default).source_ids },
        s.keep.erase i⟩
    else
      ⟨s.claims.set i
          { s.claims.getD i default with
            source_ids := mergeSourceIds (s.claims.getD i default).source_ids
              (s.claims.getD j default).source_ids },
        s.keep.erase j⟩
  else s


/-- The inner `for j in range(i + 1, len(claims))` loop (line 490). -/
def dedupInner (sim : String → String → ℚ) (t : ℚ) (stmts : List String)
    (n i : ℕ) (s : DedupState) : DedupState :=
  (List.range' (i + 1) (n - (i + 1))).foldl
    (fun s j => dedupPairStep sim t stmts i j s) s


/-- One outer-loop iteration (lines 487-489): skipped when `i` has
already been dropped. -/
def dedupOuter (sim : String → String → ℚ) (t : ℚ) (stmts : List String)
    (n : ℕ) (s : DedupState) (i : ℕ) : DedupState :=
  if i ∉ s.keep then s else dedupInner sim t stmts n i s


/-- `_deduplicate_claims` (claim_extractor.py lines 471-509).  The final
`[claims[i] for i in sorted(keep_indices)]` is rendered as a filter of
`range n` by membership in `keep_indices`: the kept indices all lie in
`range n`, so this is exactly the ascending enumeration of the kept set. -/
def deduplicate_claims (sim : String → String → ℚ) (claims : List DClaim)
    (t : ℚ := 9/10) : List DClaim :=
  if claims.length ≤ 1 then claims
  else
    let stmts := claims.map (·.statement)
    let n := claims.length
    let final := (List.range n).foldl (dedupOuter sim t stmts n) ⟨claims, Finset.range n⟩
    ((List.range n).filter (· ∈ final.keep)).map (fun i => final.claims.getD i default)


/-- An embedding-similarity oracle whose cosine similarity is 0.95 for
every pair of statements, as in the spec's dedup example. -/
def simConst95 : String → String → ℚ := fun _ _ => 19/20


/-! ### Claim extraction source-id handling
(claim_extractor.py `extract_claims`, lines 254-295) -/

/-- The fields of `DocumentChunk` (schemas.py) that `extract_claims`
reads. -/
structure DocumentChunk where
  id : String
  document_id : String
  content : String
deriving DecidableEq, Repr


/-- The fields of `Source` (schemas.py) that `extract_claims` reads. -/
structure SourceRec where
  id : String
  title : String
deriving DecidableEq, Repr


/-- One raw claim from the (already schema-validated or salvaged) LLM
response: `ExtractedClaimSchema` (claim_extractor.py lines 34-40). -/
structure ExtractedClaimSchema where
  statement : String
  source_ids : List String
  evidence : List String
  confidence : ℤ
  scope : String
deriving DecidableEq, Repr


/-- Source-id resolution for one raw claim (claim_extractor.py lines
259-268): keep only ids that match a passed `Source.id`; if none remain
(and chunks exist), fall back to `list(set(c.document_id for c in
chunks[:3]))` — the document ids of the first three context chunks. -/
def claimSourceIds (valid_source_ids : List String) (chunks : List DocumentChunk)
    (raw : List String) : List String :=
  let source_ids := raw.filter (· ∈ valid_source_ids)
  if source_ids = [] ∧ chunks ≠ [] then
    ((chunks.take 3).map (·.document_id)).dedup
  else source_ids


/-- The deterministic part of `extract_claims` (claim_extractor.py lines
212-295): the guard on empty chunks, the per-claim source-id resolution,
and the final deduplication pass.  `raws` stands for the claims parsed
from the LLM response; `sim` for the embedding similarity oracle. -/
def extract_claims (sim : String → String → ℚ) (chunks : List DocumentChunk)
    (sources : List SourceRec) (raws : List ExtractedClaimSchema) : List DClaim :=
  if chunks = [] then []
  else
    let valid_source_ids := sources.map (·.id)
    let claims := raws.map (fun r =>
      { statement := r.statement, confidence := r.confidence,
        source_ids := claimSourceIds valid_source_ids chunks r.source_ids : DClaim })
    deduplicate_claims sim claims (9/10)


/-! ### Claim classification fallback
(claim_extractor.py `_default_classification`, lines 578-589) -/

/-- `ClaimType` (schemas.py lines 25-29). -/
inductive ClaimType where
  | consensus
  | disagreement
  | uncertain
deriving DecidableEq, Repr


/-- The fields of `Claim` (schemas.py) that classification reads or
writes. -/
structure CClaim where
  id : String
  source_ids : List String
  confidence : ℤ
  contradicting_sources : ℤ
  type : ClaimType
deriving DecidableEq, Repr


/-- `_default_classification` (claim_extractor.py lines 578-589). -/
def default_classification (c : CClaim) : ClaimType :=
  if 3 ≤ c.source_ids.length ∧ 70 ≤ c.confidence then ClaimType.consensus
  else if 2 ≤ c.source_ids.length ∧ 60 ≤ c.confidence then ClaimType.consensus
  else if 0 < c.contradicting_sources then ClaimType.disagreement
  else ClaimType.uncertain


/-- The whole-batch fallback path of `classify_claims` (claim_extractor.py
lines 398-403): when the LLM call raises, every claim receives its
rule-based default classification; the per-claim path for an id missing
from the LLM response (line 392) applies the same function. -/
def classify_claims_fallback (claims : List CClaim) : List CClaim :=
  claims.map (fun c => { c with type := default_classification c })


/-! ### Source-id preservation through deduplication -/

/-- A claim whose source ids are non-empty and all satisfy `Q`. -/
def GoodClaim (Q : String → Prop) (c : DClaim) : Prop :=
  c.source_ids ≠ [] ∧ ∀ sid ∈ c.source_ids, Q sid


/-! ### Synthesis (backend/services/synthesizer.py) -/

/-- Python `s[:n]` on Lean `String`s (used for the 200-character
limitation truncation and the 100-character question stub). -/
def pyTakeString (n : ℕ) (s : String) : String :=
  ⟨s.data.take n⟩


/-- `ConsensusItemSchema` (synthesizer.py lines 46-52), validated. -/
structure ConsensusItemS where
  statement : String
  confidence : ℤ
  source_count : ℤ
  evidence_summary : String
  related_claim_ids : List String
deriving DecidableEq, Repr


/-- `DisagreementItemSchema` (synthesizer.py lines 55-61), validated. -/
structure DisagreementItemS where
  claim : String
  perspective1 : String
  perspective2 : String
  source_count : ℤ
  tension_level : String
deriving DecidableEq, Repr


/-- `OpenQuestionSchema` (synthesizer.py lines 64-68), validated. -/
structure OpenQuestionS where
  question : String
  context : String
  importance : String
deriving DecidableEq, Repr


/-- `SynthesisResponseSchema` (synthesizer.py lines 71-85), validated. -/
structure SynthesisResponseS where
  consensus : List ConsensusItemS
  disagreements : List DisagreementItemS
  open_questions : List OpenQuestionS
  limitations : List String
  overall_confidence : String
  confidence_score : ℤ
  key_insight : String
  methodology_notes : String
deriving DecidableEq, Repr


/-- One entry of a JSON list in the raw LLM response: either not a JSON
object at all, or an object carrying the recognized fields (absent keys
are `none`). -/
inductive RawItem (α : Type) where
  | notDict
  | dict (fields : α)
deriving DecidableEq, Repr


/-- Raw fields of one consensus entry. -/
structure RawConsensus where
  statement : Option String
  confidence : Option ℤ
  source_count : Option ℤ
  evidence_summary : Option String
  related_claim_ids : Option (List String)
deriving DecidableEq, Repr


/-- Raw fields of one disagreement entry. -/
structure RawDisagreement where
  claim : Option String
  perspective1 : Option String
  perspective2 : Option String
  source_count : Option ℤ
  tension_level : Option String
deriving DecidableEq, Repr


/-- Raw fields of one open-question entry. -/
structure RawQuestion where
  question : Option String
  context : Option String
  importance : Option String
deriving DecidableEq, Repr


/-- The parsed-JSON synthesis LLM response (the argument of
`SynthesisResponseSchema(**raw_result)` and of
`_parse_partial_synthesis`). -/
structure RawSynthesis where
  consensus : Option (List (RawItem RawConsensus))
  disagreements : Option (List (RawItem RawDisagreement))
  open_questions : Option (List (RawItem RawQuestion))
  limitations : Option (List String)
  overall_confidence : Option String
  confidence_score : Option ℤ
  key_insight : Option String
  methodology_notes : Option String
deriving DecidableEq, Repr


/-- `ConsensusItemSchema(**c)`: required statement (10-500 chars),
confidence in [0, 100], source_count ≥ 1; optional fields defaulted. -/
def validateConsensusFields (f : RawConsensus) : Except Unit ConsensusItemS :=
  match f.statement, f.confidence, f.source_count with
  | some st, some cf, some sc =>
    if 10 ≤ st.length ∧ st.length ≤ 500 ∧ 0 ≤ cf ∧ cf ≤ 100 ∧ 1 ≤ sc then
      Except.ok ⟨st, cf, sc, f.evidence_summary.getD "", f.related_claim_ids.getD []⟩
    else Except.error ()
  | _, _, _ => Except.error ()


/-- `DisagreementItemSchema(**d)`. -/
def validateDisagreementFields (f : RawDisagreement) : Except Unit DisagreementItemS :=
  match f.claim, f.perspective1, f.perspective2, f.source_count with
  | some cl, some p1, some p2, some sc =>
    let tl := f.tension_level.getD "moderate"
    if 10 ≤ cl.length ∧ cl.length ≤ 300 ∧ 10 ≤ p1.length ∧ p1.length ≤ 500 ∧
        10 ≤ p2.length ∧ p2.length ≤ 500 ∧ 2 ≤ sc ∧
        (tl = "low" ∨ tl = "moderate" ∨ tl = "high") then
      Except.ok ⟨cl, p1, p2, sc, tl⟩
    else Except.error ()
  | _, _, _, _ => Except.error ()


/-- `OpenQuestionSchema(**q)`. -/
def validateQuestionFields (f : RawQuestion) : Except Unit OpenQuestionS :=
  match f.question, f.context with
  | some q, some cx =>
    let im := f.importance.getD "medium"
    if 10 ≤ q.length ∧ q.length ≤ 300 ∧ 10 ≤ cx.length ∧ cx.length ≤ 500 ∧
        (im = "low" ∨ im = "medium" ∨ im = "high") then
      Except.ok ⟨q, cx, im⟩
    else Except.error ()
  | _, _ => Except.error ()


/-- Validation of one raw list entry in the *full* schema pass: a
non-object entry is a validation error. -/
def validateItem {α β : Type} (vf : α → Except Unit β) :
    RawItem α → Except Unit β
  | RawItem.notDict => Except.error ()
  | RawItem.dict f => vf f


/-- The `SynthesisResponseSchema` constructor: validates the
`overall_confidence` pattern, the `confidence_score` range and the
`key_insight` length, and truncates `limitations` to at most 5 entries
of at most 200 characters (the field validator, lines 82-85). -/
def mkSynthesisResponse (consensus : List ConsensusItemS)
    (disagreements : List DisagreementItemS)
    (open_questions : List OpenQuestionS) (limitations : List String)
    (overall_confidence : String) (confidence_score : ℤ)
    (key_insight : String) (methodology_notes : String) :
    Except Unit SynthesisResponseS :=
  if (overall_confidence = "high" ∨ overall_confidence = "medium" ∨
      overall_confidence = "low") ∧
      0 ≤ confidence_score ∧ confidence_score ≤ 100 ∧ key_insight.length ≤ 500 then
    Except.ok ⟨consensus, disagreements, open_questions,
      (limitations.take 5).map (pyTakeString 200), overall_confidence,
      confidence_score, key_insight, methodology_notes⟩
  else Except.error ()


/-- `SynthesisResponseSchema(**raw_result)` (synthesizer.py line 284):
every list entry must be an object and validate. -/
def validateSynthesisResponse (r : RawSynthesis) : Except Unit SynthesisResponseS :=
  match (r.consensus.getD []).mapM (validateItem validateConsensusFields),
      (r.disagreements.getD []).mapM (validateItem validateDisagreementFields),
      (r.open_questions.getD []).mapM (validateItem validateQuestionFields) with
  | Except.ok cs, Except.ok ds, Except.ok qs =>
    mkSynthesisResponse cs ds qs (r.limitations.getD [])
      (r.overall_confidence.getD "medium") (r.confidence_score.getD 65)
      (r.key_insight.getD "") (r.methodology_notes.getD "")
  | _, _, _ => Except.error ()


/-- The item filters of `_parse_partial_synthesis`: keep an entry only
when it is an object whose key field (`statement` / `claim` /
`question`) is present and truthy (a non-empty string). -/
def keptItems {α : Type} (keyTruthy : α → Bool) :
    List (RawItem α) → List α :=
  List.filterMap (fun it =>
    match it with
    | RawItem.notDict => none
    | RawItem.dict f => if keyTruthy f then some f else none)


/-- `_parse_partial_synthesis` (synthesizer.py lines 416-435): entries
that are not objects or lack the key field are silently dropped; the
remaining entries are run through the item schema constructors (an
invalid one raises, failing the whole pass); the surviving lists are
capped at 5/3/4; missing scalars are defaulted
(`overall_confidence="medium"`, `confidence_score=65`);
`methodology_notes` is not forwarded. -/
def parse_partial_synthesis (r : RawSynthesis) : Except Unit SynthesisResponseS :=
  match (keptItems (fun f => f.statement.getD "" ≠ "")
        (r.consensus.getD [])).mapM validateConsensusFields,
      (keptItems (fun f => f.claim.getD "" ≠ "")
        (r.disagreements.getD [])).mapM validateDisagreementFields,
      (keptItems (fun f => f.question.getD "" ≠ "")
        (r.open_questions.getD [])).mapM validateQuestionFields with
  | Except.ok cs, Except.ok ds, Except.ok qs =>
    mkSynthesisResponse (cs.take 5) (ds.take 3) (qs.take 4)
      (r.limitations.getD []) (r.overall_confidence.getD "medium")
      (r.confidence_score.getD 65) (r.key_insight.getD "") ""
  | _, _, _ => Except.error ()


/-- `ConfidenceLevel` enum (schemas.py lines 32-36). -/
inductive ConfidenceLevel where
  | high
  | medium
  | low
deriving DecidableEq, Repr


/-- The fields of `Claim` (schemas.py lines 154-164) that synthesis
reads. -/
structure SynClaim where
  id : String
  statement : String
  type : ClaimType
  confidence : ℤ
  supporting_sources : ℤ
  contradicting_sources : ℤ
  source_ids : List String
  evidence : List String
deriving DecidableEq, Repr


/-- `ConsensusItem` (schemas.py lines 192-199); the `uuid.uuid4()` id is
omitted from the model. -/
structure ConsensusItemB where
  statement : String
  confidence : ℤ
  sources : ℤ
  source_ids : List String
  evidence_summary : Option String
deriving DecidableEq, Repr


/-- `DisagreementItem` (schemas.py lines 202-209); the uuid id is
omitted. -/
structure DisagreementItemB where
  claim : String
  perspective1 : String
  perspective2 : String
  sources : ℤ
  source_ids : List String
deriving DecidableEq, Repr


/-- `OpenQuestion` (schemas.py lines 212-217); the uuid id is omitted. -/
structure OpenQuestionB where
  question : String
  context : String
  related_claim_ids : List String
deriving DecidableEq, Repr


/-- `ResearchBrief` (schemas.py lines 220-231); the `generated_at`
timestamp is omitted from the model. -/
structure ResearchBrief where
  query : String
  session_id : String
  sources : List SourceRec
  consensus : List ConsensusItemB
  disagreements : List DisagreementItemB
  open_questions : List OpenQuestionB
  confidence_level : ConfidenceLevel
  confidence_score : ℤ
  limitations : List String
deriving DecidableEq, Repr


/-- `_build_brief` (synthesizer.py lines 349-414). `claims` is accepted
but unused by the source, so it is not a parameter here. -/
def build_brief (session_id query : String) (sources : List SourceRec)
    (synthesis : SynthesisResponseS) : ResearchBrief :=
  { query := query
    session_id := session_id
    sources := sources
    consensus := synthesis.consensus.map (fun item =>
      { statement := item.statement
        confidence := item.confidence
        sources := item.source_count
        source_ids := item.related_claim_ids
        evidence_summary :=
          if item.evidence_summary = "" then none else some item.evidence_summary })
    disagreements := synthesis.disagreements.map (fun item =>
      { claim := item.claim
        perspective1 := item.perspective1
        perspective2 := item.perspective2
        sources := item.source_count
        source_ids := [] })
    open_questions := synthesis.open_questions.map (fun item =>
      { question := item.question
        context := item.context
        related_claim_ids := [] })
    confidence_level :=
      if synthesis.overall_confidence = "high" then ConfidenceLevel.high
      else if synthesis.overall_confidence = "medium" then ConfidenceLevel.medium
      else if synthesis.overall_confidence = "low" then ConfidenceLevel.low
      else ConfidenceLevel.medium
    confidence_score := synthesis.confidence_score
    limitations := synthesis.limitations }


/-- `reverse=True` confidence order used by the fallback sorts. -/
def synClaimGE (a b : SynClaim) : Prop := b.confidence ≤ a.confidence


instance : DecidableRel synClaimGE := fun a b => inferInstanceAs (Decidable (_ ≤ _))


instance : IsTotal SynClaim synClaimGE := ⟨fun a b => le_total b.confidence a.confidence⟩


instance : IsTrans SynClaim synClaimGE := ⟨fun _ _ _ h1 h2 => le_trans h2 h1⟩


/-- `_fallback_synthesis` (synthesizer.py lines 437-534). -/
def fallback_synthesis (session_id query : String) (sources : List SourceRec)
    (claims : List SynClaim) : ResearchBrief :=
  let consensus_claims :=
    List.insertionSort synClaimGE (claims.filter (fun c => c.type = ClaimType.consensus))
  let disagreement_claims :=
    List.insertionSort synClaimGE (claims.filter (fun c => c.type = ClaimType.disagreement))
  let uncertain_claims := claims.filter (fun c => c.type = ClaimType.uncertain)
  let total_claims := claims.length
  let consensus_ratio : ℚ :=
    if total_claims = 0 then 0 else (consensus_claims.length : ℚ) / total_claims
  let disagreement_ratio : ℚ :=
    if total_claims = 0 then 0 else (disagreement_claims.length : ℚ) / total_claims
  let lvl_score : ConfidenceLevel × ℤ :=
    if consensus_ratio > 3/5 ∧ disagreement_ratio < 1/5 then (ConfidenceLevel.high, 80)
    else if disagreement_ratio > 2/5 then (ConfidenceLevel.low, 45)
    else (ConfidenceLevel.medium, 65)
  let confidence_score :=
    if sources.length < 3 then min lvl_score.2 60 else lvl_score.2
  let confidence_level :=
    if sources.length < 3 then
      (if lvl_score.1 = ConfidenceLevel.high then ConfidenceLevel.medium else lvl_score.1)
    else lvl_score.1
  { query := query
    session_id := session_id
    sources := sources
    consensus := (consensus_claims.take 5).map (fun claim =>
      { statement := claim.statement
        confidence := claim.confidence
        sources := claim.supporting_sources
        source_ids := claim.source_ids
        evidence_summary := claim.evidence.head? })
    disagreements := (disagreement_claims.take 3).map (fun claim =>
      { claim := claim.statement
        perspective1 := "Supported by some sources in the analysis"
        perspective2 := "Contradicted or questioned by other sources"
        sources := claim.supporting_sources + claim.contradicting_sources
        source_ids := claim.source_ids })
    open_questions := (uncertain_claims.take 4).map (fun claim =>
      { question := "What is the evidence regarding: " ++
          pyTakeString 100 claim.statement ++ "?"
        context := "This topic has limited or ambiguous evidence in the analyzed sources."
        related_claim_ids := [claim.id] })
    confidence_level := confidence_level
    confidence_score := confidence_score
    limitations :=
      ["Analysis based on " ++ toString sources.length ++
        " sources; additional sources may provide different perspectives",
       "Extracted " ++ toString claims.length ++
        " claims through automated processing; manual review recommended",
       "Confidence levels are approximations based on source agreement patterns",
       "Some nuanced arguments may not be fully captured in atomic claims"] ++
      (if sources.length < 5 then
        ["Limited source coverage may affect comprehensiveness"] else []) }


/-- `_empty_brief` (synthesizer.py lines 536-564). -/
def empty_brief (session_id query : String) (sources : List SourceRec) :
    ResearchBrief :=
  { query := query
    session_id := session_id
    sources := sources
    consensus := []
    disagreements := []
    open_questions :=
      [{ question := "What evidence exists in the provided sources?"
         context := "No claims could be extracted from the documents. This may indicate the sources don't directly address the research question."
         related_claim_ids := [] }]
    confidence_level := ConfidenceLevel.low
    confidence_score := 20
    limitations :=
      ["No claims could be extracted from the provided sources",
       "The research question may not be addressed by these documents",
       "Try uploading more relevant sources or refining the query"] }


/-- `synthesize` (synthesizer.py lines 212-312). The LLM call is
modeled by the `llm` parameter: `none` is any failure of the call or of
JSON decoding, `some raw` a successfully parsed JSON object. An
exception raised by `_parse_partial_synthesis` is caught by the outer
`except`, which falls back to `_fallback_synthesis`. -/
def synthesize (llm : Option RawSynthesis) (session_id query : String)
    (claims : List SynClaim) (sources : List SourceRec) : ResearchBrief :=
  if claims = [] then empty_brief session_id query sources
  else
    match llm with
    | none => fallback_synthesis session_id query sources claims
    | some raw =>
      match validateSynthesisResponse raw with
      | Except.ok v => build_brief session_id query sources v
      | Except.error _ =>
        match parse_partial_synthesis raw with
        | Except.ok v => build_brief session_id query sources v
        | Except.error _ => fallback_synthesis session_id query sources claims


instance {ε α : Type} [DecidableEq ε] [DecidableEq α] : DecidableEq (Except ε α) :=
  fun a b =>
    match a, b with
    | Except.ok x, Except.ok y =>
      if h : x = y then isTrue (congrArg Except.ok h)
      else isFalse (fun hc => h (Except.ok.inj hc))
    | Except.ok _, Except.error _ => isFalse (fun hc => Except.noConfusion hc)
    | Except.error _, Except.ok _ => isFalse (fun hc => Except.noConfusion hc)
    | Except.error x, Except.error y =>
      if h : x = y then isTrue (congrArg Except.error h)
      else isFalse (fun hc => h (Except.error.inj hc))


/-- A consensus entry that is a dict, has a truthy `statement`, and
satisfies every `ConsensusItemSchema` constraint. -/
def cexRawConsensusGood : RawConsensus :=
  { statement := some "A well-supported consensus statement"
    confidence := some 80
    source_count := some 3
    evidence_summary := none
    related_claim_ids := none }


/-- A consensus entry that is a dict with a truthy `statement` but is
missing the required `confidence` field, so its schema constructor
raises. -/
def cexRawConsensusBad : RawConsensus :=
  { statement := some "Another plausible statement here"
    confidence := none
    source_count := some 2
    evidence_summary := none
    related_claim_ids := none }


/-- A raw LLM response holding one fully valid consensus entry next to
one invalid (but truthy-keyed) entry. -/
def cexRawSynthesis : RawSynthesis :=
  { consensus := some [RawItem.dict cexRawConsensusGood, RawItem.dict cexRawConsensusBad]
    disagreements := none
    open_questions := none
    limitations := none
    overall_confidence := none
    confidence_score := none
    key_insight := none
    methodology_notes := none }


/-- An extracted claim making the claims list non-empty. -/
def cexSynClaim : SynClaim :=
  { id := "c1"
    statement := "An uncertain extracted claim statement"
    type := ClaimType.uncertain
    confidence := 50
    supporting_sources := 1
    contradicting_sources := 0
    source_ids := ["s1"]
    evidence := [] }


/-- A raw response that fails full validation (a non-dict disagreement
entry) but succeeds under the lenient pass. -/
def wRawSynthesis : RawSynthesis :=
  { consensus := some [RawItem.dict cexRawConsensusGood]
    disagreements := some [RawItem.notDict]
    open_questions := none
    limitations := some ["Only one limitation"]
    overall_confidence := none
    confidence_score := none
    key_insight := none
    methodology_notes := none }


/-- The value the lenient pass produces on `wRawSynthesis`. -/
def wSynthesisV : SynthesisResponseS :=
  { consensus := [{ statement := "A well-supported consensus statement"
                    confidence := 80, source_count := 3
                    evidence_summary := "", related_claim_ids := [] }]
    disagreements := []
    open_questions := []
    limitations := ["Only one limitation"]
    overall_confidence := "medium"
    confidence_score := 65
    key_insight := ""
    methodology_notes := "" }


theorem roundHalfEven_cases (q : ℚ) :
    roundHalfEven q = ⌊q⌋ ∨ roundHalfEven q = ⌊q⌋ + 1 := by
  unfold roundHalfEven
  split
  · exact Or.inl rfl
  · split
    · exact Or.inr rfl
    · split
      · exact Or.inl rfl
      · exact Or.inr rfl


theorem roundHalfEven_nonneg {q : ℚ} (h : 0 ≤ q) : 0 ≤ roundHalfEven q := by
  have hf : (0 : ℤ) ≤ ⌊q⌋ := Int.le_floor.mpr (by exact_mod_cast h)
  rcases roundHalfEven_cases q with h1 | h1 <;> omega


theorem roundHalfEven_up_half {q : ℚ} (h : roundHalfEven q = ⌊q⌋ + 1) :
    1/2 ≤ q - (⌊q⌋ : ℚ) := by
  unfold roundHalfEven at h
  split at h
  · omega
  · exact not_lt.mp (by assumption)


theorem roundHalfEven_le {q : ℚ} {m : ℤ} (h : q ≤ (m : ℚ)) :
    roundHalfEven q ≤ m := by
  have hf : ⌊q⌋ ≤ m := by
    have := Int.floor_le_floor h
    simpa using this
  rcases roundHalfEven_cases q with h1 | h1
  · omega
  · rw [h1]
    rcases eq_or_lt_of_le hf with he | hl
    · exfalso
      have hr := roundHalfEven_up_half h1
      have hq : (⌊q⌋ : ℚ) + 1/2 ≤ q := by linarith
      have hm : q ≤ (⌊q⌋ : ℚ) := by rw [he]; exact h
      linarith
    · omega


theorem pyRound2_nonneg {q : ℚ} (h : 0 ≤ q) : 0 ≤ pyRound2 q := by
  unfold pyRound2
  have : (0 : ℤ) ≤ roundHalfEven (q * 100) :=
    roundHalfEven_nonneg (by positivity)
  positivity


theorem pyRound2_le_100 {q : ℚ} (h : q ≤ 100) : pyRound2 q ≤ 100 := by
  unfold pyRound2
  have h1 : q * 100 ≤ ((10000 : ℤ) : ℚ) := by push_cast; linarith
  have h2 : roundHalfEven (q * 100) ≤ 10000 := roundHalfEven_le h1
  have h3 : ((roundHalfEven (q * 100) : ℤ) : ℚ) ≤ 10000 := by exact_mod_cast h2
  linarith


/-! ### Basic lemmas about the string primitives -/

theorem pySplitWsAux_ne_nil {s acc w : PyStr} (h : w ∈ pySplitWsAux s acc) : w ≠ [] := by
  induction s generalizing acc with
  | nil =>
    unfold pySplitWsAux at h
    split at h
    · simp at h
    · rename_i hacc
      simp only [List.mem_singleton] at h
      subst h
      simpa using hacc
  | cons c cs ih =>
    unfold pySplitWsAux at h
    split at h
    · split at h
      · exact ih h
      · rename_i hacc
        rcases List.mem_cons.mp h with h1 | h1
        · subst h1; simpa using hacc
        · exact ih h1
    · exact ih h


theorem mem_pySplitWsAux_subset {s acc w : PyStr} (h : w ∈ pySplitWsAux s acc) :
    ∀ c ∈ w, c ∈ s ∨ c ∈ acc := by
  induction s generalizing acc with
  | nil =>
    unfold pySplitWsAux at h
    split at h
    · simp at h
    · simp only [List.mem_singleton] at h
      subst h
      intro c hc
      exact Or.inr (List.mem_reverse.mp hc)
  | cons d cs ih =>
    unfold pySplitWsAux at h
    split at h
    · split at h
      · intro c hc
        rcases ih h c hc with h1 | h1
        · exact Or.inl (List.mem_cons_of_mem _ h1)
        · simp at h1
      · rcases List.mem_cons.mp h with h1 | h1
        · subst h1
          intro c hc
          exact Or.inr (List.mem_reverse.mp hc)
        · intro c hc
          rcases ih h1 c hc with h2 | h2
          · exact Or.inl (List.mem_cons_of_mem _ h2)
          · simp at h2
    · intro c hc
      rcases ih h c hc with h1 | h1
      · exact Or.inl (List.mem_cons_of_mem _ h1)
      · rcases List.mem_cons.mp h1 with h2 | h2
        · exact Or.inl (by simp [h2])
        · exact Or.inr h2


theorem pySplitWs_ne_nil {s w : PyStr} (h : w ∈ pySplitWs s) : w ≠ [] :=
  pySplitWsAux_ne_nil h


theorem mem_pySplitWs_subset {s w : PyStr} (h : w ∈ pySplitWs s) : ∀ c ∈ w, c ∈ s := by
  intro c hc
  rcases mem_pySplitWsAux_subset h c hc with h1 | h1
  · exact h1
  · simp at h1


theorem pySubstr_nil_right {t : PyStr} (h : t ≠ []) : pySubstr t [] = false := by
  cases t with
  | nil => exact absurd rfl h
  | cons c cs => rfl


theorem pyCharLower_idem (c : Char) : pyCharLower (pyCharLower c) = pyCharLower c := by
  unfold pyCharLower
  by_cases h : c.toNat ≥ 65 ∧ c.toNat ≤ 90
  · rw [if_pos h]
    have hv : (c.toNat + 32).isValidChar := Or.inl (by omega)
    have ht : (Char.ofNat (c.toNat + 32)).toNat = c.toNat + 32 := by
      rw [Char.ofNat, dif_pos hv]; rfl
    rw [if_neg]
    rw [ht]
    omega
  · rw [if_neg h, if_neg h]


theorem pyCharLower_space : pyCharLower ' ' = ' ' := by decide


theorem pyLower_fix {s : PyStr} (h : ∀ c ∈ s, pyCharLower c = c) : pyLower s = s := by
  unfold pyLower
  have h2 := List.map_congr_left h
  simpa using h2


theorem mem_intersperse {α : Type} {sep l : α} {ws : List α}
    (h : l ∈ ws.intersperse sep) : l = sep ∨ l ∈ ws := by
  induction ws with
  | nil => simp at h
  | cons w tail ih =>
    cases tail with
    | nil =>
      simp only [List.intersperse_single, List.mem_singleton] at h
      exact Or.inr (by simp [h])
    | cons w2 rest =>
      rw [List.intersperse_cons₂] at h
      rcases List.mem_cons.mp h with h1 | h1
      · exact Or.inr (by simp [h1])
      · rcases List.mem_cons.mp h1 with h2 | h2
        · exact Or.inl h2
        · rcases ih h2 with h3 | h3
          · exact Or.inl h3
          · exact Or.inr (List.mem_cons_of_mem _ h3)


theorem mem_pyJoinSpace {ws : List PyStr} {c : Char} (h : c ∈ pyJoinSpace ws) :
    c = ' ' ∨ ∃ w ∈ ws, c ∈ w := by
  unfold pyJoinSpace List.intercalate at h
  rcases List.mem_flatten.mp h with ⟨l, hl, hcl⟩
  rcases mem_intersperse hl with h1 | h1
  · subst h1
    simp only [List.mem_singleton] at hcl
    exact Or.inl hcl
  · exact Or.inr ⟨l, h1, hcl⟩


theorem pyJoinSpace_ne_nil {w : PyStr} {ws : List PyStr} (hw : w ≠ []) :
    pyJoinSpace (w :: ws) ≠ [] := by
  unfold pyJoinSpace List.intercalate
  cases ws with
  | nil => simpa using hw
  | cons w2 rest =>
    rw [List.intersperse_cons₂]
    simp [List.append_eq_nil, hw]


/-- C3, counterexample: for query "cat" and content "catalog" with base
score 50, the code's score is 45.9 (substring keyword boost 1.02 applies)
while the claimed formula (word-set intersection) yields 45.0. -/
theorem rerank_keyword_wordset_cex :
    rerank_score "cat".toList catHit = 459/10 ∧
    claimed_rerank_score "cat".toList catHit = 45 ∧
    (459/10 : ℚ) ≠ 45 := by
  refine ⟨by decide, by decide, by norm_num⟩


/-- C3, amended: the reranked score equals
round(min(base × length_boost × keyword_boost × section_boost, 100), 2)
with the length rule of the claim, the keyword boost counting distinct
lowercase query terms occurring as case-insensitive *substrings* of the
content (not word-set members), and the 1.1 section boost applying
exactly when some query term is a case-insensitive substring of the
section title. -/
theorem rerank_score_substring_form (query : PyStr) (h : Hit) :
    rerank_score query h = amended_rerank_score query h := by
  simp only [rerank_score, amended_rerank_score]
  rw [List.countP_eq_length_filter]
  have hsec :
      (if h.section_title ≠ [] ∧
          (pySplitWs (pyLower query)).dedup.any
            (fun t => pySubstr t (pyLower h.section_title)) then (11/10 : ℚ) else 1)
        = (if (pySplitWs (pyLower query)).dedup.any
            (fun t => pySubstr t (pyLower h.section_title)) then (11/10 : ℚ) else 1) := by
    by_cases hs : h.section_title = []
    · have hany : (pySplitWs (pyLower query)).dedup.any
          (fun t => pySubstr t (pyLower h.section_title)) = false := by
        rw [List.any_eq_false]
        intro t ht
        have hne : t ≠ [] := pySplitWs_ne_nil (List.mem_dedup.mp ht)
        rw [hs]
        show ¬ pySubstr t (pyLower []) = true
        rw [show pyLower [] = [] from rfl, pySubstr_nil_right hne]
        simp
      rw [hany]
      simp [hs]
    · simp [hs]
  rw [hsec]


/-! ### Query expansion lemmas -/

theorem keyword_query_props {query : PyStr} {fw : List PyStr}
    (hsub : ∀ w ∈ fw, w ∈ pySplitWs (pyLower query))
    (hne : fw ≠ [])
    (hq : pyJoinSpace fw ≠ pyLower query) :
    pyJoinSpace fw ≠ query ∧ pyJoinSpace fw ≠ [] := by
  constructor
  · intro heq
    apply hq
    have hfix : pyLower (pyJoinSpace fw) = pyJoinSpace fw := by
      apply pyLower_fix
      intro c hc
      rcases mem_pyJoinSpace hc with rfl | ⟨w, hw, hcw⟩
      · exact pyCharLower_space
      · have h1 : c ∈ pyLower query := mem_pySplitWs_subset (hsub w hw) c hcw
        rcases List.mem_map.mp h1 with ⟨c', _, rfl⟩
        exact pyCharLower_idem c'
    calc pyJoinSpace fw = pyLower (pyJoinSpace fw) := hfix.symm
      _ = pyLower query := by rw [heq]
  · cases hfwc : fw with
    | nil => exact absurd hfwc hne
    | cons w ws =>
      have hwne : w ≠ [] := pySplitWs_ne_nil (hsub w (by simp [hfwc]))
      exact pyJoinSpace_ne_nil hwne


theorem term_query_ne_nil {query : PyStr} {kt : List PyStr}
    (hsub : ∀ w ∈ kt, w ∈ pySplitWs query)
    (hne : kt ≠ []) :
    pyJoinSpace kt ≠ [] := by
  cases hktc : kt with
  | nil => exact absurd hktc hne
  | cons w ws =>
    have hwne : w ≠ [] := pySplitWs_ne_nil (hsub w (by simp [hktc]))
    exact pyJoinSpace_ne_nil hwne


/-- Facts about the keyword-only variant when it is appended. -/
theorem kq_props (query : PyStr) (hne : filtered_words query ≠ [])
    (hq : keyword_query query ≠ pyLower query) :
    keyword_query query ≠ query ∧ keyword_query query ≠ [] :=
  keyword_query_props (fun w hw => (List.mem_filter.mp hw).1) hne hq


/-- The key-terms variant, when the key-terms list is non-empty, is a
non-empty string. -/
theorem tq_ne_nil (query : PyStr) (hne : key_terms query ≠ []) :
    term_query query ≠ [] :=
  term_query_ne_nil (fun w hw => (List.mem_filter.mp hw).1) hne


/-- The four possible outputs of `_expand_query`: just the query, the
query plus a keyword-only variant, the query plus a key-terms variant,
or all three; the added variants are non-empty and pairwise distinct
from each other and from the query. -/
theorem expand_query_shape (query : PyStr) :
    expand_query query = [query] ∨
    (∃ kq, expand_query query = [query, kq] ∧ kq ≠ [] ∧ kq ≠ query) ∨
    (∃ tq, expand_query query = [query, tq] ∧ tq ≠ [] ∧ tq ≠ query) ∨
    (∃ kq tq, expand_query query = [query, kq, tq] ∧ kq ≠ [] ∧ kq ≠ query ∧
      tq ≠ [] ∧ tq ≠ query ∧ tq ≠ kq) := by
  simp only [expand_query]
  split_ifs with h1 h2 h3 h4 h5 h6 h7 h8
  all_goals
    first
    | exact Or.inl rfl
    | exact Or.inr (Or.inl ⟨_, rfl,
        (kq_props query (by simp_all) (by assumption)).2,
        (kq_props query (by simp_all) (by assumption)).1⟩)
    | exact Or.inr (Or.inr (Or.inl ⟨_, rfl,
        tq_ne_nil query (by simp_all), by simp_all⟩))
    | exact Or.inr (Or.inr (Or.inr ⟨_, _, rfl,
        (kq_props query (by simp_all) (by assumption)).2,
        (kq_props query (by simp_all) (by assumption)).1,
        tq_ne_nil query (by simp_all), by simp_all, by simp_all⟩))


/-- C10: for every query string, `_expand_query` returns at most 3
variants; the first element is the original query verbatim; the later
elements (keyword-only variant and key-terms variant) are present only
when non-empty and are pairwise distinct from each other and from the
first element. -/
theorem expand_query_contract (query : PyStr) :
    (expand_query query).length ≤ 3 ∧
    (expand_query query).head? = some query ∧
    (∀ v ∈ (expand_query query).tail, v ≠ []) ∧
    (expand_query query).Nodup := by
  rcases expand_query_shape query with h | ⟨kq, h, hn, hq⟩ | ⟨tq, h, hn, hq⟩ |
    ⟨kq, tq, h, hkn, hkq, htn, htq, htk⟩ <;> rw [h]
  · exact ⟨by simp, rfl, by simp, by simp⟩
  · refine ⟨by simp, rfl, ?_, ?_⟩
    · intro v hv
      simp only [List.tail_cons, List.mem_singleton] at hv
      subst hv
      exact hn
    · simp [Ne.symm hq]
  · refine ⟨by simp, rfl, ?_, ?_⟩
    · intro v hv
      simp only [List.tail_cons, List.mem_singleton] at hv
      subst hv
      exact hn
    · simp [Ne.symm hq]
  · refine ⟨by simp, rfl, ?_, ?_⟩
    · intro v hv
      simp only [List.tail_cons, List.mem_cons, List.not_mem_nil, or_false] at hv
      rcases hv with rfl | rfl
      · exact hkn
      · exact htn
    · refine List.nodup_cons.mpr ⟨?_, List.nodup_cons.mpr ⟨?_, List.nodup_singleton _⟩⟩
      · intro hmem
        rcases List.mem_cons.mp hmem with he | he
        · exact hkq he.symm
        · simp only [List.mem_singleton] at he
          exact htq he.symm
      · intro hmem
        simp only [List.mem_singleton] at hmem
        exact htk hmem.symm


/-! ### Source-diversity lemmas -/

theorem diversityPrimary_cap (res : List Hit) (sel : List Hit) (tk mps : ℕ) (doc : String)
    (hinv : sel.countP (fun h => h.document_id == doc) ≤ mps) :
    (diversityPrimary res sel tk mps).countP (fun h => h.document_id == doc) ≤ mps := by
  induction res generalizing sel with
  | nil => simpa [diversityPrimary] using hinv
  | cons r rest ih =>
    simp only [diversityPrimary]
    by_cases hc : sel.countP (fun s => s.document_id == r.document_id) < mps
    · rw [if_pos hc]
      have hinv' : (sel ++ [r]).countP (fun h => h.document_id == doc) ≤ mps := by
        rw [List.countP_append]
        by_cases hdoc : r.document_id = doc
        · subst hdoc
          have h1 : List.countP (fun h => h.document_id == r.document_id) [r] = 1 := by
            simp [List.countP_cons]
          omega
        · have h1 : List.countP (fun h => h.document_id == doc) [r] = 0 := by
            simp [List.countP_cons, hdoc]
          omega
      split
      · exact hinv'
      · exact ih _ hinv'
    · rw [if_neg hc]
      split
      · exact hinv
      · exact ih _ hinv


theorem diversityPrimary_len (res : List Hit) (sel : List Hit) (tk mps : ℕ)
    (h : sel.length < tk) :
    (diversityPrimary res sel tk mps).length ≤ tk := by
  induction res generalizing sel with
  | nil => simp only [diversityPrimary]; omega
  | cons r rest ih =>
    simp only [diversityPrimary]
    by_cases hc : sel.countP (fun s => s.document_id == r.document_id) < mps
    · rw [if_pos hc]
      split
      · simp only [List.length_append, List.length_singleton]
        omega
      · exact ih _ (by rename_i hlt; simp only [List.length_append, List.length_singleton] at *; omega)
    · rw [if_neg hc]
      split
      · omega
      · exact ih _ h


theorem diversityPrimary_split (res : List Hit) (sel : List Hit) (tk mps : ℕ) :
    ∃ s, diversityPrimary res sel tk mps = sel ++ s ∧ s.Sublist res := by
  induction res generalizing sel with
  | nil => exact ⟨[], by simp [diversityPrimary], List.nil_sublist _⟩
  | cons r rest ih =>
    simp only [diversityPrimary]
    by_cases hc : sel.countP (fun s => s.document_id == r.document_id) < mps
    · rw [if_pos hc]
      split
      · exact ⟨[r], rfl, (List.nil_sublist rest).cons₂ r⟩
      · obtain ⟨s', he, hs⟩ := ih (sel ++ [r])
        exact ⟨r :: s', by rw [he]; simp, hs.cons₂ r⟩
    · rw [if_neg hc]
      split
      · exact ⟨[], by simp, List.nil_sublist _⟩
      · obtain ⟨s', he, hs⟩ := ih sel
        exact ⟨s', he, hs.cons r⟩


theorem diversityBackfill_split (res : List Hit) (sel : List Hit) (tk : ℕ) :
    ∃ s, diversityBackfill res sel tk = sel ++ s ∧ s.Sublist res := by
  induction res generalizing sel with
  | nil => exact ⟨[], by simp [diversityBackfill], List.nil_sublist _⟩
  | cons r rest ih =>
    simp only [diversityBackfill]
    by_cases hm : r ∈ sel
    · rw [if_pos hm]
      obtain ⟨s', he, hs⟩ := ih sel
      exact ⟨s', he, hs.cons r⟩
    · rw [if_neg hm]
      split
      · exact ⟨[r], rfl, (List.nil_sublist rest).cons₂ r⟩
      · obtain ⟨s', he, hs⟩ := ih (sel ++ [r])
        exact ⟨r :: s', by rw [he]; simp, hs.cons₂ r⟩


theorem diversityBackfill_len (res : List Hit) (sel : List Hit) (tk : ℕ)
    (h : sel.length < tk) :
    (diversityBackfill res sel tk).length ≤ tk := by
  induction res generalizing sel with
  | nil => simp only [diversityBackfill]; omega
  | cons r rest ih =>
    simp only [diversityBackfill]
    by_cases hm : r ∈ sel
    · rw [if_pos hm]
      exact ih _ h
    · rw [if_neg hm]
      split
      · simp only [List.length_append, List.length_singleton]
        omega
      · exact ih _ (by rename_i hlt; simp only [List.length_append, List.length_singleton] at *; omega)


theorem diversityBackfill_complete (res : List Hit) (sel : List Hit) (tk : ℕ)
    (hlen : (diversityBackfill res sel tk).length < tk) :
    ∀ r ∈ res, r ∈ diversityBackfill res sel tk := by
  induction res generalizing sel with
  | nil => intro r hr; exact absurd hr (List.not_mem_nil r)
  | cons r rest ih =>
    intro x hx
    simp only [diversityBackfill] at hlen ⊢
    by_cases hm : r ∈ sel
    · rw [if_pos hm] at hlen ⊢
      rcases List.mem_cons.mp hx with rfl | hx2
      · obtain ⟨s', he, _⟩ := diversityBackfill_split rest sel tk
        rw [he]
        exact List.mem_append_left _ hm
      · exact ih _ hlen x hx2
    · rw [if_neg hm] at hlen ⊢
      split
      · rename_i htop
        rw [if_pos htop] at hlen
        simp only [List.length_append, List.length_singleton] at hlen htop
        omega
      · rename_i htop
        rw [if_neg htop] at hlen
        rcases List.mem_cons.mp hx with rfl | hx2
        · obtain ⟨s', he, _⟩ := diversityBackfill_split rest (sel ++ [x]) tk
          rw [he]
          exact List.mem_append_left _ (List.mem_append_right _ (List.mem_singleton_self x))
        · exact ih _ hlen x hx2


theorem ensure_source_diversity_split (results : List Hit) (tk mps : ℕ) :
    ∃ p b, ensure_source_diversity results tk mps = p ++ b ∧
      p.Sublist results ∧ b.Sublist results := by
  unfold ensure_source_diversity
  split
  · exact ⟨[], [], rfl, List.nil_sublist _, List.nil_sublist _⟩
  · obtain ⟨s, hp, hs⟩ := diversityPrimary_split results [] tk mps
    simp only []
    split
    · obtain ⟨s₂, hb, hs₂⟩ := diversityBackfill_split results (diversityPrimary results [] tk mps) tk
      refine ⟨s, s₂, ?_, hs, hs₂⟩
      rw [hb, hp]
      simp
    · exact ⟨s, [], by rw [hp]; simp, hs, List.nil_sublist _⟩


theorem ensure_source_diversity_len (results : List Hit) (tk mps : ℕ) (htk : 1 ≤ tk) :
    (ensure_source_diversity results tk mps).length ≤ tk := by
  unfold ensure_source_diversity
  split
  · simp
  · simp only []
    split
    · exact diversityBackfill_len _ _ _ (by assumption)
    · exact diversityPrimary_len results [] tk mps (by simp only [List.length_nil]; omega)


theorem ensure_source_diversity_complete (results : List Hit) (tk mps : ℕ)
    (hlen : (ensure_source_diversity results tk mps).length < tk) :
    ∀ r ∈ results, r ∈ ensure_source_diversity results tk mps := by
  unfold ensure_source_diversity at hlen ⊢
  by_cases hnil : results = []
  · subst hnil
    intro r hr
    exact absurd hr (List.not_mem_nil r)
  · rw [if_neg hnil] at hlen ⊢
    simp only [] at hlen ⊢
    by_cases hsmall : (diversityPrimary results [] tk mps).length < tk
    · rw [if_pos hsmall] at hlen ⊢
      exact diversityBackfill_complete _ _ _ hlen
    · rw [if_neg hsmall] at hlen
      exact absurd hlen hsmall


/-! ### Re-ranking bound and sortedness lemmas -/

theorem rerank_score_bounds (query : PyStr) (h : Hit) (h0 : 0 ≤ h.relevance_score) :
    0 ≤ rerank_score query h ∧ rerank_score query h ≤ 100 := by
  unfold rerank_score
  constructor
  · apply pyRound2_nonneg
    apply le_min _ (by norm_num)
    have hlb : (0:ℚ) ≤
        (if 200 ≤ h.content.length ∧ h.content.length ≤ 1000 then 21/20
         else if h.content.length < 100 then 9/10 else 1) := by
      split_ifs <;> norm_num
    have hkb : (0:ℚ) ≤ 1 +
        (((pySplitWs (pyLower query)).dedup.filter
          (fun t => pySubstr t (pyLower h.content))).length : ℚ) * (1/50) := by
      positivity
    have hsb : (0:ℚ) ≤
        (if h.section_title ≠ [] ∧
            (pySplitWs (pyLower query)).dedup.any
              (fun t => pySubstr t (pyLower h.section_title)) then 11/10 else 1) := by
      split_ifs <;> norm_num
    exact mul_nonneg (mul_nonneg (mul_nonneg h0 hlb) hkb) hsb
  · exact pyRound2_le_100 (min_le_right _ _)


theorem mem_rerank_results {results : List Hit} {query : PyStr} {x : Hit}
    (hx : x ∈ rerank_results results query) :
    ∃ r ∈ results, x = { r with relevance_score := rerank_score query r } := by
  unfold rerank_results at hx
  have h1 := (List.perm_insertionSort hitGE
    (results.map (fun r => { r with relevance_score := rerank_score query r }))).mem_iff.mp hx
  rcases List.mem_map.mp h1 with ⟨r, hr, he⟩
  exact ⟨r, hr, he.symm⟩


theorem rerank_results_sorted (results : List Hit) (query : PyStr) :
    List.Sorted hitGE (rerank_results results query) :=
  List.sorted_insertionSort hitGE _


/-- C2, amended: if every incoming hit has relevance score in [0, 100]
then every hit emitted by the pipeline has relevance score in [0, 100],
and the output is the concatenation of two segments — the primary
diversity selection and the backfill — each of which is ordered
non-increasingly by relevance score (the concatenation as a whole need
not be, because backfilled hits are appended after the diversity
selection). -/
theorem retrieve_pipeline_amended (results : List Hit) (query : PyStr) (top_k : ℕ)
    (hb : ∀ x ∈ results, 0 ≤ x.relevance_score ∧ x.relevance_score ≤ 100) :
    (∀ x ∈ retrievePipeline results query top_k,
      0 ≤ x.relevance_score ∧ x.relevance_score ≤ 100) ∧
    (∃ p b, retrievePipeline results query top_k = p ++ b ∧
      List.Sorted hitGE p ∧ List.Sorted hitGE b) := by
  obtain ⟨p, b, he, hp, hbs⟩ := ensure_source_diversity_split (rerank_results results query) top_k 4
  have hsorted := rerank_results_sorted results query
  constructor
  · intro x hx
    unfold retrievePipeline at hx
    have hx2 : x ∈ ensure_source_diversity (rerank_results results query) top_k 4 :=
      List.take_subset _ _ hx
    rw [he] at hx2
    have hx3 : x ∈ rerank_results results query := by
      rcases List.mem_append.mp hx2 with h1 | h1
      · exact hp.subset h1
      · exact hbs.subset h1
    rcases mem_rerank_results hx3 with ⟨r, hr, rfl⟩
    simpa using rerank_score_bounds query r (hb r hr).1
  · refine ⟨p.take top_k, b.take (top_k - p.length), ?_, ?_, ?_⟩
    · unfold retrievePipeline
      rw [he, List.take_append_eq_append_take]
    · exact List.Pairwise.sublist ((List.take_sublist _ _).trans hp) hsorted
    · exact List.Pairwise.sublist ((List.take_sublist _ _).trans hbs) hsorted


/-- C2, counterexample: for the hits above (all scores in [0, 100]) and
top_k = 6, the pipeline emits scores [81, 72, 63, 54, 36, 45]: the hit
skipped by the per-source cap (score 45) is backfilled at the end, after
the lower-scoring hit from the other document (score 36), so the output
is not ordered non-increasingly by relevance score. -/
theorem retrieve_order_cex :
    (∀ x ∈ orderCexHits, 0 ≤ x.relevance_score ∧ x.relevance_score ≤ 100) ∧
    (retrievePipeline orderCexHits [] 6).map Hit.relevance_score =
      [81, 72, 63, 54, 36, 45] ∧
    ¬ List.Sorted hitGE (retrievePipeline orderCexHits [] 6) := by
  exact ⟨by decide, by decide, by decide⟩


/-- Witness for the amended C2 at a concrete input. -/
theorem retrieve_pipeline_amended_witness :
    (∀ x ∈ segHits, 0 ≤ x.relevance_score ∧ x.relevance_score ≤ 100) ∧
    ((∀ x ∈ retrievePipeline segHits [] 2,
        0 ≤ x.relevance_score ∧ x.relevance_score ≤ 100) ∧
      (∃ p b, retrievePipeline segHits [] 2 = p ++ b ∧
        List.Sorted hitGE p ∧ List.Sorted hitGE b)) :=
  ⟨by decide, retrieve_pipeline_amended segHits [] 2 (by decide)⟩


/-- C6: for every reranked hit list, `top_k ≥ 1` (the request schema
bounds `top_k` to [1, 50]) and `max_per_source`: no `document_id` is
admitted more than `max_per_source` times by the primary diversity pass;
the diversified output has length at most `top_k`; and when it has fewer
than `top_k` hits, the input is exhausted — every input hit is already
present (by value) in the output. -/
theorem source_diversity_caps (results : List Hit) (top_k max_per_source : ℕ)
    (htk : 1 ≤ top_k) :
    (∀ doc : String,
      (diversityPrimary results [] top_k max_per_source).countP
        (fun h => h.document_id == doc) ≤ max_per_source) ∧
    (ensure_source_diversity results top_k max_per_source).length ≤ top_k ∧
    ((ensure_source_diversity results top_k max_per_source).length < top_k →
      ∀ r ∈ results, r ∈ ensure_source_diversity results top_k max_per_source) :=
  ⟨fun doc => diversityPrimary_cap results [] top_k max_per_source doc (by simp),
   ensure_source_diversity_len results top_k max_per_source htk,
   fun h => ensure_source_diversity_complete results top_k max_per_source h⟩


/-- Witness for C6 at a concrete input. -/
theorem source_diversity_caps_witness :
    1 ≤ 2 ∧
    ((∀ doc : String,
        (diversityPrimary capHits [] 2 1).countP
          (fun h => h.document_id == doc) ≤ 1) ∧
      (ensure_source_diversity capHits 2 1).length ≤ 2 ∧
      ((ensure_source_diversity capHits 2 1).length < 2 →
        ∀ r ∈ capHits, r ∈ ensure_source_diversity capHits 2 1)) :=
  ⟨by decide, source_diversity_caps capHits 2 1 (by decide)⟩


/-! ### Deduplication lemmas -/

theorem set_getD_self {α : Type} (m : List α) (j : ℕ) (d : α) :
    m.set j (m.getD j d) = m := by
  induction m generalizing j with
  | nil => simp
  | cons a as ih =>
    cases j with
    | zero => simp
    | succ k =>
      simp only [List.set_cons_succ, List.getD_cons_succ]
      rw [ih]


theorem dedupPairStep_keep_subset (sim : String → String → ℚ) (t : ℚ)
    (stmts : List String) (i j : ℕ) (s : DedupState) :
    (dedupPairStep sim t stmts i j s).keep ⊆ s.keep := by
  unfold dedupPairStep
  split_ifs <;> first
    | exact Finset.Subset.refl _
    | exact Finset.erase_subset _ _


theorem map_statement_set_sourceids (l : List DClaim) (k : ℕ) (sids : List String) :
    (l.set k { l.getD k default with source_ids := sids }).map (·.statement) =
      l.map (·.statement) := by
  rw [List.map_set]
  show (l.map (·.statement)).set k ((l.getD k default).statement) = l.map (·.statement)
  rw [show (l.getD k default).statement =
      (l.map (·.statement)).getD k ((default : DClaim).statement) from
      (List.getD_map l default (·.statement)).symm]
  exact set_getD_self _ _ _


theorem dedupPairStep_statements (sim : String → String → ℚ) (t : ℚ)
    (stmts : List String) (i j : ℕ) (s : DedupState) :
    (dedupPairStep sim t stmts i j s).claims.map (·.statement) =
      s.claims.map (·.statement) := by
  unfold dedupPairStep
  split_ifs <;> first
    | rfl
    | exact map_statement_set_sourceids s.claims j _
    | exact map_statement_set_sourceids s.claims i _


theorem foldl_keep_subset {β : Type} (f : DedupState → β → DedupState)
    (hf : ∀ s b, (f s b).keep ⊆ s.keep) (l : List β) (s : DedupState) :
    (l.foldl f s).keep ⊆ s.keep := by
  induction l generalizing s with
  | nil => exact Finset.Subset.refl _
  | cons b bs ih => exact (ih (f s b)).trans (hf s b)


theorem foldl_statements {β : Type} (f : DedupState → β → DedupState)
    (hf : ∀ s b, (f s b).claims.map (·.statement) = s.claims.map (·.statement))
    (l : List β) (s : DedupState) :
    (l.foldl f s).claims.map (·.statement) = s.claims.map (·.statement) := by
  induction l generalizing s with
  | nil => rfl
  | cons b bs ih => exact (ih (f s b)).trans (hf s b)


theorem foldl_congr_id {β : Type} (f : DedupState → β → DedupState) (l : List β)
    (hf : ∀ b ∈ l, ∀ s, f s b = s) (s : DedupState) : l.foldl f s = s := by
  induction l generalizing s with
  | nil => rfl
  | cons b bs ih =>
    rw [List.foldl_cons, hf b (List.mem_cons_self b bs)]
    exact ih (fun b' hb' s' => hf b' (List.mem_cons_of_mem b hb') s') s


theorem dedupOuter_keep_subset (sim : String → String → ℚ) (t : ℚ)
    (stmts : List String) (n : ℕ) (s : DedupState) (i : ℕ) :
    (dedupOuter sim t stmts n s i).keep ⊆ s.keep := by
  unfold dedupOuter
  split
  · exact Finset.Subset.refl _
  · exact foldl_keep_subset _ (fun s' j => dedupPairStep_keep_subset sim t stmts i j s') _ s


theorem dedupOuter_statements (sim : String → String → ℚ) (t : ℚ)
    (stmts : List String) (n : ℕ) (s : DedupState) (i : ℕ) :
    (dedupOuter sim t stmts n s i).claims.map (·.statement) =
      s.claims.map (·.statement) := by
  unfold dedupOuter
  split
  · rfl
  · exact foldl_statements _ (fun s' j => dedupPairStep_statements sim t stmts i j s') _ s


theorem range_decompose (i n : ℕ) (h : i < n) :
    List.range n = List.range i ++ (i :: List.range' (i + 1) (n - i - 1)) := by
  rw [List.range_eq_range', List.range_eq_range']
  have h1 := List.range'_append 0 i (n - i) 1
  simp only [one_mul, Nat.zero_add] at h1
  rw [show (n - i) + i = n from by omega] at h1
  rw [← h1]
  congr 1
  rw [show n - i = (n - i - 1) + 1 from by omega, List.range'_succ]
  simp


theorem range'_decompose (a b len : ℕ) (hab : a ≤ b) (hblen : b < a + len) :
    List.range' a len = List.range' a (b - a) ++ (b :: List.range' (b + 1) (a + len - b - 1)) := by
  have h1 := List.range'_append a (b - a) (len - (b - a)) 1
  simp only [one_mul] at h1
  rw [show a + (b - a) = b from by omega] at h1
  rw [show (len - (b - a)) + (b - a) = len from by omega] at h1
  rw [← h1]
  congr 1
  rw [show len - (b - a) = (a + len - b - 1) + 1 from by omega, List.range'_succ]


/-- Two indices that both survive the whole double loop were compared at
similarity below the threshold: had the pair reached the threshold, one
of the two would have been dropped, and dropped indices never return. -/
theorem dedup_survivors_dissimilar (sim : String → String → ℚ) (t : ℚ)
    (stmts : List String) (n : ℕ) (s₀ : DedupState) {i j : ℕ}
    (hij : i < j) (hjn : j < n)
    (hi : i ∈ ((List.range n).foldl (dedupOuter sim t stmts n) s₀).keep)
    (hj : j ∈ ((List.range n).foldl (dedupOuter sim t stmts n) s₀).keep) :
    sim (stmts.getD i "") (stmts.getD j "") < t := by
  by_contra hge
  push_neg at hge
  have hin : i < n := lt_trans hij hjn
  rw [range_decompose i n hin, List.foldl_append, List.foldl_cons] at hi hj
  set F := dedupOuter sim t stmts n with hF
  set s₁ := (List.range i).foldl F s₀ with hs₁
  set rest := List.range' (i + 1) (n - i - 1) with hrest
  have houtsub : ∀ s b, (F s b).keep ⊆ s.keep :=
    fun s b => dedupOuter_keep_subset sim t stmts n s b
  have hiF : i ∈ (F s₁ i).keep := foldl_keep_subset F houtsub rest (F s₁ i) hi
  have hjF : j ∈ (F s₁ i).keep := foldl_keep_subset F houtsub rest (F s₁ i) hj
  have his₁ : i ∈ s₁.keep := houtsub s₁ i hiF
  have hFeq : F s₁ i = dedupInner sim t stmts n i s₁ := by
    rw [hF]
    unfold dedupOuter
    rw [if_neg (not_not_intro his₁)]
  rw [hFeq] at hiF hjF
  unfold dedupInner at hiF hjF
  rw [range'_decompose (i + 1) j (n - (i + 1)) (by omega) (by omega),
    List.foldl_append, List.foldl_cons] at hiF hjF
  set P := fun (s : DedupState) (k : ℕ) => dedupPairStep sim t stmts i k s with hP
  set u := (List.range' (i + 1) (j - (i + 1))).foldl P s₁ with hu
  set irest := List.range' (j + 1) ((i + 1) + (n - (i + 1)) - j - 1) with hirest
  have hpsub : ∀ s b, (P s b).keep ⊆ s.keep :=
    fun s b => dedupPairStep_keep_subset sim t stmts i b s
  have hiP : i ∈ (P u j).keep := foldl_keep_subset P hpsub irest (P u j) hiF
  have hjP : j ∈ (P u j).keep := foldl_keep_subset P hpsub irest (P u j) hjF
  have hju : j ∈ u.keep := hpsub u j hjP
  simp only [hP] at hiP hjP
  unfold dedupPairStep at hiP hjP
  rw [if_neg (not_not_intro hju), if_pos hge] at hiP hjP
  split_ifs at hiP hjP
  · exact absurd hiP (Finset.not_mem_erase i u.keep)
  · exact absurd hjP (Finset.not_mem_erase j u.keep)


theorem dedupPairStep_of_lt (sim : String → String → ℚ) (t : ℚ)
    (stmts : List String) (i j : ℕ) (s : DedupState)
    (h : sim (stmts.getD i "") (stmts.getD j "") < t) :
    dedupPairStep sim t stmts i j s = s := by
  unfold dedupPairStep
  split_ifs with h1 h2 h3 <;> first
    | rfl
    | exact absurd h2 (not_le.mpr h)


/-- When every forward pair is below the threshold, the whole double loop
is the identity. -/
theorem dedup_fold_id (sim : String → String → ℚ) (t : ℚ)
    (stmts : List String) (n : ℕ) (s₀ : DedupState)
    (hall : ∀ i j, i < j → j < n → sim (stmts.getD i "") (stmts.getD j "") < t) :
    (List.range n).foldl (dedupOuter sim t stmts n) s₀ = s₀ := by
  apply foldl_congr_id
  intro i _ s
  unfold dedupOuter
  split
  · rfl
  · unfold dedupInner
    apply foldl_congr_id
    intro j hj s'
    have hj' := List.mem_range'_1.mp hj
    exact dedupPairStep_of_lt sim t stmts i j s' (hall i j (by omega) (by omega))


theorem range_map_getD (l : List DClaim) :
    (List.range l.length).map (fun i => l.getD i default) = l := by
  induction l with
  | nil => simp
  | cons a as ih =>
    rw [List.length_cons, List.range_succ_eq_map]
    simp only [List.map_cons, List.map_map, List.getD_cons_zero]
    congr 1


theorem filter_range_map_getD (l : List DClaim) :
    (((List.range l.length).filter (· ∈ Finset.range l.length)).map
      (fun i => l.getD i default)) = l := by
  have hf : (List.range l.length).filter (· ∈ Finset.range l.length) =
      List.range l.length := by
    apply List.filter_eq_self.mpr
    intro a ha
    simp [Finset.mem_range, List.mem_range.mp ha]
  rw [hf]
  exact range_map_getD l


theorem statement_getD (l : List DClaim) (k : ℕ) :
    (l.getD k default).statement = (l.map (·.statement)).getD k "" :=
  (List.getD_map l default (·.statement)).symm


/-- If all forward pairs of a claims list are dissimilar, deduplication
returns it unchanged. -/
theorem dedup_of_pairwise (sim : String → String → ℚ) (t : ℚ) (out : List DClaim)
    (hpw : List.Pairwise (fun a b => sim a.statement b.statement < t) out) :
    deduplicate_claims sim out t = out := by
  by_cases hlen2 : out.length ≤ 1
  · rw [deduplicate_claims, if_pos hlen2]
  · have hall : ∀ i j, i < j → j < out.length →
        sim ((out.map (·.statement)).getD i "")
          ((out.map (·.statement)).getD j "") < t := by
      intro i j hij hjn
      have hin : i < out.length := lt_trans hij hjn
      have hR := List.pairwise_iff_getElem.mp hpw i j hin hjn hij
      have h1 : (out.map (·.statement)).getD i "" = (out[i]).statement := by
        rw [List.getD_eq_getElem?_getD, List.getElem?_map,
          List.getElem?_eq_getElem hin]
        rfl
      have h2 : (out.map (·.statement)).getD j "" = (out[j]).statement := by
        rw [List.getD_eq_getElem?_getD, List.getElem?_map,
          List.getElem?_eq_getElem hjn]
        rfl
      rw [h1, h2]
      exact hR
    rw [deduplicate_claims, if_neg hlen2]
    simp only []
    rw [dedup_fold_id sim t (out.map (·.statement)) out.length _ hall]
    exact filter_range_map_getD out


/-- C9: `_deduplicate_claims` is idempotent.  Every pair of surviving
claims has statement similarity strictly below the threshold (the
similarity function is fixed, and statements are never mutated), so a
second run performs no merge or drop and returns its input unchanged. -/
theorem deduplicate_idempotent (sim : String → String → ℚ) (t : ℚ)
    (claims : List DClaim) :
    List.Pairwise (fun a b => sim a.statement b.statement < t)
      (deduplicate_claims sim claims t) ∧
    deduplicate_claims sim (deduplicate_claims sim claims t) t =
      deduplicate_claims sim claims t := by
  have hpair : List.Pairwise (fun a b => sim a.statement b.statement < t)
      (deduplicate_claims sim claims t) := by
    by_cases hlen : claims.length ≤ 1
    · unfold deduplicate_claims
      rw [if_pos hlen]
      rcases claims with _ | ⟨a, _ | ⟨b, bs⟩⟩
      · exact List.Pairwise.nil
      · simp
      · simp at hlen
    · unfold deduplicate_claims
      rw [if_neg hlen]
      simp only []
      rw [List.pairwise_map]
      set stmts := claims.map (·.statement) with hstmts
      set n := claims.length with hn
      set final := (List.range n).foldl (dedupOuter sim t stmts n)
        ⟨claims, Finset.range n⟩ with hfinal
      have hsorted : List.Pairwise (· < ·)
          ((List.range n).filter (· ∈ final.keep)) :=
        (List.pairwise_lt_range n).filter _
      have hstm : final.claims.map (·.statement) = stmts := by
        rw [hfinal]
        exact foldl_statements _
          (fun s i => dedupOuter_statements sim t stmts n s i) _ _
      refine List.Pairwise.imp_of_mem ?_ hsorted
      intro a b ha hb hab
      have haK : a ∈ final.keep := by
        have := (List.mem_filter.mp ha).2
        simpa using this
      have hbK : b ∈ final.keep := by
        have := (List.mem_filter.mp hb).2
        simpa using this
      have hsub : final.keep ⊆ Finset.range n := by
        rw [hfinal]
        exact foldl_keep_subset _
          (fun s i => dedupOuter_keep_subset sim t stmts n s i) _ _
      have hbn : b < n := Finset.mem_range.mp (hsub hbK)
      have hdis := dedup_survivors_dissimilar sim t stmts n
        ⟨claims, Finset.range n⟩ hab hbn (hfinal ▸ haK) (hfinal ▸ hbK)
      rw [statement_getD, statement_getD, hstm]
      exact hdis
  exact ⟨hpair, dedup_of_pairwise sim t _ hpair⟩


/-- C1, amended: when a not-yet-eliminated pair (i, j) reaches the
similarity threshold, the later claim j survives iff it has strictly
higher confidence OR strictly more source ids — the source-id count is a
second, independent way to win the comparison, not only a tie-break —
and the survivor's source_ids become the duplicate-free union.  Stated
on a two-claim list, which exercises exactly one comparison. -/
theorem dedup_pair_rule (sim : String → String → ℚ) (t : ℚ) (c1 c2 : DClaim)
    (hsim : t ≤ sim c1.statement c2.statement) :
    deduplicate_claims sim [c1, c2] t =
      if c1.confidence < c2.confidence ∨ c1.source_ids.length < c2.source_ids.length
      then [{ c2 with source_ids := mergeSourceIds c2.source_ids c1.source_ids }]
      else [{ c1 with source_ids := mergeSourceIds c1.source_ids c2.source_ids }] := by
  have hlen : ¬ ([c1, c2].length ≤ 1) := by simp
  rw [deduplicate_claims, if_neg hlen]
  simp only []
  rw [show List.range ([c1, c2].length) = [0, 1] from rfl,
    List.foldl_cons, List.foldl_cons, List.foldl_nil]
  have hstep1 : dedupOuter sim t ([c1, c2].map (·.statement)) [c1, c2].length
      ⟨[c1, c2], Finset.range [c1, c2].length⟩ 0 =
      dedupPairStep sim t ([c1, c2].map (·.statement)) 0 1
        ⟨[c1, c2], Finset.range 2⟩ := rfl
  rw [hstep1, dedupPairStep]
  rw [if_neg (show ¬ (1 ∉ (⟨[c1, c2], Finset.range 2⟩ : DedupState).keep) from
    fun hn => hn (Finset.mem_range.mpr one_lt_two))]
  rw [show (([c1, c2].map (·.statement)).getD 0 "") = c1.statement from rfl,
    show (([c1, c2].map (·.statement)).getD 1 "") = c2.statement from rfl]
  rw [if_pos hsim]
  split_ifs with hc1 hc2 hc3
  · rfl
  · exact absurd hc1 hc2
  · exact absurd hc3 hc1
  · rfl


/-- C1, counterexample: at similarity 0.95 (≥ 0.9 threshold), the earlier
claim has strictly higher confidence (80 vs 60) but fewer source ids
(1 vs 2); the code keeps the *later, lower-confidence* claim, because
having more source ids wins the comparison outright rather than only
breaking confidence ties. -/
theorem dedup_confidence_rule_cex :
    deduplicate_claims simConst95
      [⟨"claim A", 80, ["s1"]⟩, ⟨"claim B", 60, ["s2", "s3"]⟩] (9/10) =
      [⟨"claim B", 60, ["s2", "s3", "s1"]⟩] ∧
    ((60 : ℤ) < 80) := by
  exact ⟨by decide, by decide⟩


/-- Witness for the amended C1, instantiated with the spec's example:
similarity 0.95, confidences 60 and 80, source ids {s1} and {s2}; the
single survivor has confidence 80 and source ids {s2, s1}. -/
theorem dedup_pair_rule_witness :
    ((9/10 : ℚ) ≤ simConst95 "claim A" "claim B") ∧
    deduplicate_claims simConst95
      [⟨"claim A", 60, ["s1"]⟩, ⟨"claim B", 80, ["s2"]⟩] (9/10) =
      (if (60 : ℤ) < 80 ∨ (["s1"] : List String).length < (["s2"] : List String).length
       then [⟨"claim B", 80, mergeSourceIds ["s2"] ["s1"]⟩]
       else [⟨"claim A", 60, mergeSourceIds ["s1"] ["s2"]⟩]) ∧
    deduplicate_claims simConst95
      [⟨"claim A", 60, ["s1"]⟩, ⟨"claim B", 80, ["s2"]⟩] (9/10) =
      [⟨"claim B", 80, ["s2", "s1"]⟩] :=
  ⟨by decide,
   dedup_pair_rule simConst95 (9/10) ⟨"claim A", 60, ["s1"]⟩ ⟨"claim B", 80, ["s2"]⟩
     (by decide),
   by decide⟩


/-- C7: every claim classified by the rule-based fallback gets CONSENSUS
iff `len(source_ids) ≥ 3 ∧ confidence ≥ 70` or
`len(source_ids) ≥ 2 ∧ confidence ≥ 60`, else DISAGREEMENT iff
`contradicting_sources > 0`, else UNCERTAIN; in particular three source
ids at confidence 75 always give CONSENSUS, and a single source id at
confidence 75 with no contradicting sources always gives UNCERTAIN. -/
theorem default_classification_rule :
    (∀ (claims : List CClaim), ∀ c ∈ classify_claims_fallback claims,
      (c.type = ClaimType.consensus ↔
        (3 ≤ c.source_ids.length ∧ 70 ≤ c.confidence) ∨
        (2 ≤ c.source_ids.length ∧ 60 ≤ c.confidence)) ∧
      (c.type = ClaimType.disagreement ↔
        ¬((3 ≤ c.source_ids.length ∧ 70 ≤ c.confidence) ∨
          (2 ≤ c.source_ids.length ∧ 60 ≤ c.confidence)) ∧
        0 < c.contradicting_sources) ∧
      (c.type = ClaimType.uncertain ↔
        ¬((3 ≤ c.source_ids.length ∧ 70 ≤ c.confidence) ∨
          (2 ≤ c.source_ids.length ∧ 60 ≤ c.confidence)) ∧
        ¬(0 < c.contradicting_sources))) ∧
    (∀ (i a b d : String) (x : ℤ) (ty : ClaimType),
      default_classification ⟨i, [a, b, d], 75, x, ty⟩ = ClaimType.consensus) ∧
    (∀ (i a : String) (ty : ClaimType),
      default_classification ⟨i, [a], 75, 0, ty⟩ = ClaimType.uncertain) := by
  refine ⟨?_, ?_, ?_⟩
  · intro claims c hc
    rcases List.mem_map.mp hc with ⟨c₀, _, rfl⟩
    show (default_classification c₀ = ClaimType.consensus ↔ _) ∧ _
    unfold default_classification
    split_ifs with h1 h2 h3 <;>
      refine ⟨?_, ?_, ?_⟩ <;> simp_all <;> omega
  · intro i a b d x ty
    simp [default_classification]
  · intro i a ty
    simp [default_classification]


/-- Witness for C7 at a concrete claim list. -/
theorem default_classification_rule_witness :
    (⟨"c1", ["sa", "sb"], 65, 0, ClaimType.consensus⟩ : CClaim) ∈
      ([⟨"c1", ["sa", "sb"], 65, 0, ClaimType.uncertain⟩] : List CClaim).map
        (fun c => { c with type := default_classification c }) ∧
    ∀ c ∈ classify_claims_fallback
        [⟨"c1", ["sa", "sb"], 65, 0, ClaimType.uncertain⟩],
      (c.type = ClaimType.consensus ↔
        (3 ≤ c.source_ids.length ∧ 70 ≤ c.confidence) ∨
        (2 ≤ c.source_ids.length ∧ 60 ≤ c.confidence)) ∧
      (c.type = ClaimType.disagreement ↔
        ¬((3 ≤ c.source_ids.length ∧ 70 ≤ c.confidence) ∨
          (2 ≤ c.source_ids.length ∧ 60 ≤ c.confidence)) ∧
        0 < c.contradicting_sources) ∧
      (c.type = ClaimType.uncertain ↔
        ¬((3 ≤ c.source_ids.length ∧ 70 ≤ c.confidence) ∨
          (2 ≤ c.source_ids.length ∧ 60 ≤ c.confidence)) ∧
        ¬(0 < c.contradicting_sources)) :=
  ⟨by decide,
   default_classification_rule.1 [⟨"c1", ["sa", "sb"], 65, 0, ClaimType.uncertain⟩]⟩


theorem getD_set {α : Type} (l : List α) (j k : ℕ) (c d : α) :
    (l.set j c).getD k d = if j = k ∧ j < l.length then c else l.getD k d := by
  by_cases hjk : j = k
  · subst hjk
    by_cases hj : j < l.length
    · simp [List.getD_eq_getElem?_getD, List.getElem?_set_self hj, hj]
    · rw [List.set_eq_of_length_le (le_of_not_lt hj)]
      simp [hj]
  · simp [List.getD_eq_getElem?_getD, List.getElem?_set_ne hjk, hjk]


theorem mergeSourceIds_good {Q : String → Prop} {a b : List String}
    (ha : a ≠ []) (haq : ∀ sid ∈ a, Q sid) (hbq : ∀ sid ∈ b, Q sid) :
    mergeSourceIds a b ≠ [] ∧ ∀ sid ∈ mergeSourceIds a b, Q sid := by
  constructor
  · intro hnil
    unfold mergeSourceIds at hnil
    rw [List.dedup_eq_nil, List.append_eq_nil] at hnil
    exact ha hnil.1
  · intro sid hsid
    have h1 : sid ∈ a ++ b := List.mem_dedup.mp hsid
    rcases List.mem_append.mp h1 with h2 | h2
    · exact haq sid h2
    · exact hbq sid h2


theorem goodClaim_getD {Q : String → Prop} {l : List DClaim} {k : ℕ}
    (h : ∀ c ∈ l, GoodClaim Q c) (hk : k < l.length) :
    GoodClaim Q (l.getD k default) := by
  apply h
  rw [List.getD_eq_getElem?_getD, List.getElem?_eq_getElem hk]
  exact List.getElem_mem hk


/-- If `i` is out of bounds, the default claim's empty source-id list
makes the merge collapse to the in-bounds side. -/
theorem dedupPairStep_good (Q : String → Prop) (sim : String → String → ℚ)
    (t : ℚ) (stmts : List String) (i j : ℕ) (s : DedupState)
    (h : ∀ k, k < s.claims.length → GoodClaim Q (s.claims.getD k default)) :
    ∀ k, k < (dedupPairStep sim t stmts i j s).claims.length →
      GoodClaim Q ((dedupPairStep sim t stmts i j s).claims.getD k default) := by
  have hside : ∀ (m : ℕ), ∀ sid ∈ (s.claims.getD m default).source_ids, Q sid := by
    intro m sid hsid
    by_cases hm : m < s.claims.length
    · exact (h m hm).2 sid hsid
    · rw [List.getD_eq_getElem?_getD, List.getElem?_eq_none (by omega)] at hsid
      simp at hsid
      exact absurd hsid (List.not_mem_nil sid)
  unfold dedupPairStep
  split_ifs <;> intro k hk <;>
    first
      | exact h k hk
      | (simp only [List.length_set] at hk
         rw [getD_set]
         split_ifs with hj
         · exact mergeSourceIds_good (h _ hj.2).1 (h _ hj.2).2 (hside _)
         · exact h k hk)


theorem foldl_good {β : Type} (Q : String → Prop) (f : DedupState → β → DedupState)
    (hf : ∀ s b, (∀ k, k < s.claims.length → GoodClaim Q (s.claims.getD k default)) →
      ∀ k, k < (f s b).claims.length → GoodClaim Q ((f s b).claims.getD k default))
    (l : List β) (s : DedupState)
    (h : ∀ k, k < s.claims.length → GoodClaim Q (s.claims.getD k default)) :
    ∀ k, k < (l.foldl f s).claims.length →
      GoodClaim Q ((l.foldl f s).claims.getD k default) := by
  induction l generalizing s with
  | nil => exact h
  | cons b bs ih => exact ih (f s b) (hf s b h)


theorem dedupOuter_good (Q : String → Prop) (sim : String → String → ℚ)
    (t : ℚ) (stmts : List String) (n : ℕ) (s : DedupState) (i : ℕ)
    (h : ∀ k, k < s.claims.length → GoodClaim Q (s.claims.getD k default)) :
    ∀ k, k < (dedupOuter sim t stmts n s i).claims.length →
      GoodClaim Q ((dedupOuter sim t stmts n s i).claims.getD k default) := by
  unfold dedupOuter
  split
  · exact h
  · exact foldl_good Q _ (fun s' j h' => dedupPairStep_good Q sim t stmts i j s' h') _ s h


theorem dedupPairStep_length (sim : String → String → ℚ) (t : ℚ)
    (stmts : List String) (i j : ℕ) (s : DedupState) :
    (dedupPairStep sim t stmts i j s).claims.length = s.claims.length := by
  unfold dedupPairStep
  split_ifs <;> simp [List.length_set]


theorem foldl_claims_length {β : Type} (f : DedupState → β → DedupState)
    (hf : ∀ s b, (f s b).claims.length = s.claims.length)
    (l : List β) (s : DedupState) :
    (l.foldl f s).claims.length = s.claims.length := by
  induction l generalizing s with
  | nil => rfl
  | cons b bs ih => exact (ih (f s b)).trans (hf s b)


theorem dedupOuter_length (sim : String → String → ℚ) (t : ℚ)
    (stmts : List String) (n : ℕ) (s : DedupState) (i : ℕ) :
    (dedupOuter sim t stmts n s i).claims.length = s.claims.length := by
  unfold dedupOuter
  split
  · rfl
  · exact foldl_claims_length _
      (fun s' j => dedupPairStep_length sim t stmts i j s') _ s


theorem foldl_dedupOuter_length (sim : String → String → ℚ) (t : ℚ)
    (stmts : List String) (n : ℕ) (l : List ℕ) (s : DedupState) :
    (l.foldl (dedupOuter sim t stmts n) s).claims.length = s.claims.length :=
  foldl_claims_length _ (fun s' b => dedupOuter_length sim t stmts n s' b) l s


theorem dedup_fold_claims_length (sim : String → String → ℚ) (t : ℚ)
    (claims : List DClaim) :
    ((List.range claims.length).foldl
      (dedupOuter sim t (claims.map (·.statement)) claims.length)
      ⟨claims, Finset.range claims.length⟩).claims.length = claims.length := by
  have h := foldl_dedupOuter_length sim t (claims.map (·.statement)) claims.length
    (List.range claims.length) ⟨claims, Finset.range claims.length⟩
  exact h


set_option maxHeartbeats 1000000 in
/-- Deduplication preserves "source ids non-empty and all satisfying Q". -/
theorem deduplicate_claims_good (Q : String → Prop) (sim : String → String → ℚ)
    (t : ℚ) (claims : List DClaim) (h : ∀ c ∈ claims, GoodClaim Q c) :
    ∀ c ∈ deduplicate_claims sim claims t, GoodClaim Q c := by
  unfold deduplicate_claims
  split_ifs with hlen
  · exact h
  · simp only []
    intro c hc
    rcases List.mem_map.mp hc with ⟨k, hkmem, rfl⟩
    have hk : k < claims.length :=
      List.mem_range.mp (List.mem_of_mem_filter hkmem)
    have hinv := foldl_good Q _
      (fun s i h' => dedupOuter_good Q sim t (claims.map (·.statement))
        claims.length s i h')
      (List.range claims.length) ⟨claims, Finset.range claims.length⟩
      (fun k' hk' => goodClaim_getD h hk')
    exact hinv k (by rw [dedup_fold_claims_length sim t claims]; exact hk)


/-- C5, counterexample: the LLM emits a claim whose only source id is
unknown; the fallback remaps it to the context chunks' document ids, but
those need not match any `Source.id` passed to the extractor — here the
emitted claim references "d-other", which is not among the passed source
ids. -/
theorem extract_source_ids_unknown_cex :
    extract_claims simConst95
      [⟨"c1", "d-other", "some content"⟩]
      [⟨"s1", "Title"⟩]
      [⟨"statement from the LLM", ["bogus"], [], 50, "general"⟩] =
      [⟨"statement from the LLM", 50, ["d-other"]⟩] ∧
    "d-other" ∉ ([⟨"s1", "Title"⟩] : List SourceRec).map (·.id) := by
  exact ⟨by decide, by decide⟩


/-- C5, amended: every claim emitted by the extraction stage has a
non-empty `source_ids` list, and every entry is either the id of a
`Source` passed to the extractor or the `document_id` of one of the
context chunks (the remap target); unknown ids from the raw LLM output
are dropped, but the remap path draws on chunk document ids, which need
not be among the passed sources. -/
theorem extract_source_ids_amended (sim : String → String → ℚ)
    (chunks : List DocumentChunk) (sources : List SourceRec)
    (raws : List ExtractedClaimSchema) :
    ∀ c ∈ extract_claims sim chunks sources raws,
      c.source_ids ≠ [] ∧
      ∀ sid ∈ c.source_ids,
        sid ∈ sources.map (·.id) ∨ sid ∈ chunks.map (·.document_id) := by
  intro c hc
  unfold extract_claims at hc
  split_ifs at hc with hch
  · exact absurd hc (List.not_mem_nil c)
  · simp only [] at hc
    have hbase : ∀ c₀ ∈ raws.map (fun r =>
        ({ statement := r.statement, confidence := r.confidence,
           source_ids := claimSourceIds (sources.map (·.id)) chunks
             r.source_ids } : DClaim)),
        GoodClaim
          (fun sid => sid ∈ sources.map (·.id) ∨ sid ∈ chunks.map (·.document_id))
          c₀ := by
      intro c₀ hc₀
      rcases List.mem_map.mp hc₀ with ⟨r, _, rfl⟩
      constructor
      · show claimSourceIds _ _ _ ≠ []
        unfold claimSourceIds
        simp only []
        split_ifs with hcase
        · intro hnil
          rw [List.dedup_eq_nil, List.map_eq_nil_iff] at hnil
          have hcnil : chunks = [] := by
            cases chunks with
            | nil => rfl
            | cons a as => simp at hnil
          exact hch hcnil
        · intro hnil
          exact hcase ⟨hnil, hch⟩
      · intro sid hsid
        show _ ∨ _
        unfold claimSourceIds at hsid
        simp only [] at hsid
        split_ifs at hsid with hcase
        · right
          have h1 := List.mem_dedup.mp hsid
          rcases List.mem_map.mp h1 with ⟨ch, hchm, rfl⟩
          exact List.mem_map.mpr ⟨ch, List.take_subset 3 chunks hchm, rfl⟩
        · left
          have h2 := (List.mem_filter.mp hsid).2
          simpa using h2
    exact deduplicate_claims_good _ sim (9/10) _ hbase c hc


/-- Witness for the amended C5 at a concrete input where the raw source
id is already valid. -/
theorem extract_source_ids_amended_witness :
    (⟨"valid statement", 50, ["sW"]⟩ : DClaim) ∈
      extract_claims simConst95 [⟨"cw", "dw", "x"⟩] [⟨"sW", "T"⟩]
        [⟨"valid statement", ["sW"], [], 50, "general"⟩] ∧
    ((⟨"valid statement", 50, ["sW"]⟩ : DClaim).source_ids ≠ [] ∧
      ∀ sid ∈ (⟨"valid statement", 50, ["sW"]⟩ : DClaim).source_ids,
        sid ∈ ([⟨"sW", "T"⟩] : List SourceRec).map (·.id) ∨
        sid ∈ ([⟨"cw", "dw", "x"⟩] : List DocumentChunk).map (·.document_id)) :=
  ⟨by decide,
   extract_source_ids_amended simConst95 [⟨"cw", "dw", "x"⟩] [⟨"sW", "T"⟩]
     [⟨"valid statement", ["sW"], [], 50, "general"⟩]
     ⟨"valid statement", 50, ["sW"]⟩ (by decide)⟩


theorem pyTakeString_length_le (n : ℕ) (s : String) :
    (pyTakeString n s).length ≤ n :=
  List.length_take_le n s.data


/-- C8: with an empty claims list, `synthesize` short-circuits to
`_empty_brief` for every LLM behavior, query, session and source list:
no consensus, no disagreements, exactly one canned open question,
confidence LOW with score 20, and exactly three canned limitations. -/
theorem synthesize_empty_claims (llm : Option RawSynthesis)
    (sid q : String) (sources : List SourceRec) :
    synthesize llm sid q [] sources = empty_brief sid q sources ∧
    (empty_brief sid q sources).consensus = [] ∧
    (empty_brief sid q sources).disagreements = [] ∧
    (empty_brief sid q sources).open_questions =
      [{ question := "What evidence exists in the provided sources?"
         context := "No claims could be extracted from the documents. This may indicate the sources don't directly address the research question."
         related_claim_ids := [] }] ∧
    (empty_brief sid q sources).confidence_level = ConfidenceLevel.low ∧
    (empty_brief sid q sources).confidence_score = 20 ∧
    (empty_brief sid q sources).limitations.length = 3 := by
  refine ⟨?_, rfl, rfl, rfl, rfl, rfl, rfl⟩
  unfold synthesize
  rw [if_pos rfl]


/-- C4 counterexample: `_parse_partial_synthesis` does not keep each
well-formed list item individually.  On a response whose consensus list
holds one fully valid entry and one entry with a truthy `statement` but
no `confidence`, full validation fails, and the lenient pass also
raises (its list comprehension has no per-item exception handling), so
`synthesize` falls through to the rule-based fallback and the valid
consensus entry is discarded: the brief has no consensus at all. -/
theorem partial_synthesis_abort_cex :
    validateConsensusFields cexRawConsensusGood =
      Except.ok { statement := "A well-supported consensus statement"
                  confidence := 80, source_count := 3
                  evidence_summary := "", related_claim_ids := [] } ∧
    validateSynthesisResponse cexRawSynthesis = Except.error () ∧
    parse_partial_synthesis cexRawSynthesis = Except.error () ∧
    synthesize (some cexRawSynthesis) "sess" "a query" [cexSynClaim] [] =
      fallback_synthesis "sess" "a query" [] [cexSynClaim] ∧
    (synthesize (some cexRawSynthesis) "sess" "a query" [cexSynClaim] []).consensus
      = [] := by
  exact ⟨by decide, by decide, by decide, by decide, by decide⟩


theorem synthesize_some_eq (raw : RawSynthesis) (sid q : String)
    (claims : List SynClaim) (sources : List SourceRec) (hcl : claims ≠ []) :
    synthesize (some raw) sid q claims sources =
      match validateSynthesisResponse raw with
      | Except.ok v => build_brief sid q sources v
      | Except.error _ =>
        match parse_partial_synthesis raw with
        | Except.ok v => build_brief sid q sources v
        | Except.error _ => fallback_synthesis sid q sources claims := by
  unfold synthesize
  rw [if_neg hcl]


/-- C4 (amended): when the parsed LLM response fails full schema
validation and the claims list is non-empty, `synthesize` runs the
lenient pass before any rule-based fallback.  If the lenient pass
succeeds — which requires every *retained* list item (a dict whose key
field is truthy) to validate, items that are not dicts or lack the key
field having been dropped — its result is used to build the brief, its
lists are capped (consensus ≤ 5, disagreements ≤ 3, open_questions ≤ 4,
limitations ≤ 5 with each limitation at most 200 characters) and
missing scalars default to `overall_confidence = "medium"` and
`confidence_score = 65`; only if the lenient pass itself raises is the
full rule-based fallback used. -/
theorem partial_synthesis_amended (raw : RawSynthesis) (sid q : String)
    (claims : List SynClaim) (sources : List SourceRec) (v : SynthesisResponseS)
    (hcl : claims ≠ [])
    (hfull : validateSynthesisResponse raw = Except.error ()) :
    (parse_partial_synthesis raw = Except.ok v →
      synthesize (some raw) sid q claims sources = build_brief sid q sources v ∧
      v.consensus.length ≤ 5 ∧
      v.disagreements.length ≤ 3 ∧
      v.open_questions.length ≤ 4 ∧
      v.limitations.length ≤ 5 ∧
      (∀ l ∈ v.limitations, l.length ≤ 200) ∧
      (raw.overall_confidence = none → v.overall_confidence = "medium") ∧
      (raw.confidence_score = none → v.confidence_score = 65)) ∧
    (parse_partial_synthesis raw = Except.error () →
      synthesize (some raw) sid q claims sources =
        fallback_synthesis sid q sources claims) := by
  constructor
  · intro hpar
    have hsynth : synthesize (some raw) sid q claims sources =
        build_brief sid q sources v := by
      rw [synthesize_some_eq raw sid q claims sources hcl, hfull, hpar]
    refine ⟨hsynth, ?_⟩
    unfold parse_partial_synthesis at hpar
    split at hpar
    · rename_i cs ds qs hcs hds hqs
      unfold mkSynthesisResponse at hpar
      split at hpar
      · rename_i hok
        have hv := Except.ok.inj hpar
        subst hv
        refine ⟨List.length_take_le _ _, List.length_take_le _ _,
          List.length_take_le _ _, ?_, ?_, ?_, ?_⟩
        · simpa using List.length_take_le 5 (raw.limitations.getD [])
        · intro l hl
          rcases List.mem_map.mp hl with ⟨x, _, hx⟩
          rw [hx.symm] at *
          exact pyTakeString_length_le 200 x
        · intro h
          simp [h]
        · intro h
          simp [h]
      · exact absurd hpar (by simp)
    · exact absurd hpar (by simp)
  · intro hperr
    rw [synthesize_some_eq raw sid q claims sources hcl, hfull, hperr]


theorem partial_synthesis_amended_witness :
    ([cexSynClaim] : List SynClaim) ≠ [] ∧
    validateSynthesisResponse wRawSynthesis = Except.error () ∧
    parse_partial_synthesis wRawSynthesis = Except.ok wSynthesisV ∧
    synthesize (some wRawSynthesis) "sess" "a query" [cexSynClaim] [] =
      build_brief "sess" "a query" [] wSynthesisV ∧
    wSynthesisV.consensus.length ≤ 5 ∧
    wSynthesisV.overall_confidence = "medium" ∧
    wSynthesisV.confidence_score = 65 := by
  have h := (partial_synthesis_amended wRawSynthesis "sess" "a query"
    [cexSynClaim] [] wSynthesisV (by decide) (by decide)).1 (by decide)
  exact ⟨by decide, by decide, by decide, h.1, h.2.1,
    h.2.2.2.2.2.2.1 rfl, h.2.2.2.2.2.2.2 rfl⟩
